import Mathlib

set_option maxHeartbeats 1000000

/-
  Verification development for the credential-shop repository.

  Part 1 models `src/database.py` (the Settlement Engine): the MongoDB
  collections become Lean data, and each Repo method that the spec's
  claims mention becomes a pure state-passing function.  Every conditioned
  MongoDB `find_one_and_update` / `update_one` becomes an explicit
  check-then-update on the state.

  Part 2 models the `otp_listener` closure of `src/bot.py` (the Session
  Registry's inbound event handler).
-/

namespace SettlementModel

/-- Mirror of a document in the `accounts` collection (`src/database.py`).
`oid` stands for the Mongo `_id`; timestamps are abstract `Nat` ticks. -/
structure Account where
  oid : Nat
  phone : String
  country : String
  year : Option Int
  price : Option Int
  status : String
  assigned_to : Option Int
  sold_to_user_id : Option Int
  sold_to_username : Option String
  assigned_at : Option Nat
  created_at : Nat
  updated_at : Nat
deriving Repr, DecidableEq

/-- Mirror of a document inserted into the `purchases` collection by the
three buy methods of `Repo`. -/
structure Purchase where
  user_id : Int
  account_id : Nat
  price : Int
  original_price : Int
  discount_used : Bool
  phone : String
  country : String
  year : Option Int
  created_at : Nat
deriving Repr, DecidableEq

/-- Mirror of a document in the `deposits` collection (fields touched by
`Repo.mark_deposit`). -/
structure Deposit where
  oid : Nat
  user_id : Int
  status : String
  admin_id : Int
  credits_added : Option Int
  created_at : Nat
  updated_at : Nat
deriving Repr, DecidableEq

/-- Mirror of a document in the `credit_logs` collection, appended by
`Repo.add_credits` and `Repo.set_credits`. -/
structure CreditLog where
  user_id : Int
  amount : Int
  by_admin : Int
  mode : Option String
  created_at : Nat
deriving Repr, DecidableEq

/-- The store state.  `credits` projects the `users` collection to each
user's integer balance (a missing user doc reads as the post-`ensure_user`
default 0); `tokens` projects the `ref_tokens` collection the same way
(`$inc` upserts make a missing doc behave as count 0). -/
structure DB where
  accounts : List Account
  credits : Int → Int
  tokens : Int → Int
  purchases : List Purchase
  deposits : List Deposit
  credit_logs : List CreditLog

/-- Mirror of `Repo._reserve_token`: conditioned decrement, succeeds only
when the user's token count is at least 1. -/
def reserve_token (db : DB) (user_id : Int) : Bool × DB :=
  if 1 ≤ db.tokens user_id then
    (true, { db with tokens := fun u => if u = user_id then db.tokens u - 1 else db.tokens u })
  else
    (false, db)

/-- Mirror of `Repo._release_token`: unconditioned `$inc` by 1 (upsert). -/
def release_token (db : DB) (user_id : Int) : DB :=
  { db with tokens := fun u => if u = user_id then db.tokens u + 1 else db.tokens u }

/-- Mirror of the `$set` document used by all three buy methods when they
transition an account from `available` to `assigned`. -/
def assignUpd (now : Nat) (user_id : Int) (username : Option String) (a : Account) : Account :=
  { a with
      status := "assigned"
      assigned_to := some user_id
      sold_to_user_id := some user_id
      sold_to_username := some (username.getD "")
      assigned_at := some now
      updated_at := now }

/-- Mirror of the compensation `$set` document used by the buy methods to
roll an account back to `available`.  Note that, exactly as in the source,
it does NOT restore `sold_to_user_id` / `sold_to_username`. -/
def revertAssign (now : Nat) (a : Account) : Account :=
  { a with
      status := "available"
      assigned_to := none
      assigned_at := none
      updated_at := now }

/-- Apply an update to every account whose `_id` matches (Mongo touches one
document because `_id` is unique; theorems carry that uniqueness as a
`Nodup` hypothesis where it matters). -/
def setFields (db : DB) (oid : Nat) (f : Account → Account) : DB :=
  { db with accounts := db.accounts.map (fun a => if a.oid = oid then f a else a) }

/-- Sort key used by `buy_account_filtered`: price ascending, then
`created_at` ascending. -/
def keyOf (a : Account) : Int × Nat :=
  (a.price.getD 0, a.created_at)

/-- Strict lexicographic comparison on sort keys. -/
def ltKey (k1 k2 : Int × Nat) : Bool :=
  k1.1 < k2.1 || (k1.1 = k2.1 && k1.2 < k2.2)

/-- Model of `find_one_and_update` with a sort: return the matching
document with the least key (leftmost among equal keys, standing for
Mongo's unspecified residual order). -/
def selectMin (q : Account → Bool) (key : Account → Int × Nat) : List Account → Option Account
  | [] => none
  | a :: rest =>
    match selectMin q key rest with
    | none => if q a then some a else none
    | some b => if q a then (if ltKey (key b) (key a) then some b else some a) else some b

/-- Query built by `buy_account_filtered`: available, in the requested
country, optionally in the requested year, priced, and priced at most
`maxPrice`. -/
def availQ (country : String) (year : Option Int) (maxPrice : Int) (a : Account) : Bool :=
  a.status = "available" && a.country = country &&
    (match year with
     | none => true
     | some y => a.year = some y) &&
    (match a.price with
     | none => false
     | some p => p ≤ maxPrice)

/-- Query built by `buy_account_by_group`: available, exact country, exact
year value (possibly null), exact price. -/
def groupQ (country : String) (year : Option Int) (price : Int) (a : Account) : Bool :=
  a.status = "available" && a.country = country && a.year = year && a.price = some price

/-- The transient annotations `_original_price` / `_final_price` /
`_discount_used` that the buy methods attach to the returned account. -/
structure SoldInfo where
  account : Account
  original_price : Int
  final_price : Int
  discount_used : Bool
deriving Repr, DecidableEq

/-- Shared settlement tail of the three buy methods: conditioned balance
decrement (`credits >= charge`), then either append a purchase record, or
compensate (release the token if one was reserved, roll the account back
to `available`) and report `insufficient_credits`. -/
def settle (db : DB) (now : Nat) (user_id : Int) (accAfter : Account) (token_used : Bool) :
    (Option SoldInfo × String) × DB :=
  let original_price := accAfter.price.getD 0
  let charge := if token_used then max 0 (original_price - 5) else original_price
  if charge ≤ db.credits user_id then
    let db1 := { db with credits := fun u => if u = user_id then db.credits u - charge else db.credits u }
    let p : Purchase :=
      { user_id := user_id, account_id := accAfter.oid, price := charge,
        original_price := original_price, discount_used := token_used,
        phone := accAfter.phone, country := accAfter.country, year := accAfter.year,
        created_at := now }
    ((some ⟨accAfter, original_price, charge, token_used⟩, "ok"),
      { db1 with purchases := db1.purchases ++ [p] })
  else
    let db1 := if token_used then release_token db user_id else db
    ((none, "insufficient_credits"), setFields db1 accAfter.oid (revertAssign now))

/-- The conditioned available-to-assigned transition followed by the
settlement tail, as each pass of the buy methods performs it. -/
def assign_and_settle (db : DB) (now : Nat) (user_id : Int) (username : Option String)
    (acc : Account) (token_used : Bool) : (Option SoldInfo × String) × DB :=
  settle (setFields db acc.oid (assignUpd now user_id username)) now user_id
    (assignUpd now user_id username acc) token_used

/-- The full-price pass of `Repo.buy_account_filtered` (`want_token =
False` iteration): budget is the balance read at entry, no token. -/
def full_price_pass (db : DB) (now : Nat) (user_id : Int) (username : Option String)
    (country : String) (year : Option Int) (credits : Int) : (Option SoldInfo × String) × DB :=
  match selectMin (availQ country year credits) keyOf db.accounts with
  | none => ((none, "no_affordable"), db)
  | some acc => assign_and_settle db now user_id username acc false

/-- Mirror of `Repo.buy_account_filtered`: try a token-discounted pass
(budget = credits + 5), then a full-price pass (budget = credits); each
pass takes the cheapest available matching account via one conditioned
update. -/
def buy_account_filtered (db : DB) (now : Nat) (user_id : Int) (username : Option String)
    (country : String) (year : Option Int) : (Option SoldInfo × String) × DB :=
  let credits := db.credits user_id
  let r := reserve_token db user_id
  if r.1 then
    match selectMin (availQ country year (credits + 5)) keyOf r.2.accounts with
    | none => full_price_pass (release_token r.2 user_id) now user_id username country year credits
    | some acc => assign_and_settle r.2 now user_id username acc true
  else
    full_price_pass r.2 now user_id username country year credits

/-- Token reservation followed by the settlement tail, as
`buy_account_by_group` / `buy_account_by_id` perform it after their
conditioned assignment. -/
def reserve_and_settle (db : DB) (now : Nat) (user_id : Int) (accAfter : Account) :
    (Option SoldInfo × String) × DB :=
  let r := reserve_token db user_id
  settle r.2 now user_id accAfter r.1

/-- Mirror of `Repo.buy_account_by_group`: conditioned assignment of the
oldest available account in a (country, year, price) group, then token
reservation and settlement. -/
def buy_account_by_group (db : DB) (now : Nat) (user_id : Int) (username : Option String)
    (country : String) (year : Option Int) (price : Int) : (Option SoldInfo × String) × DB :=
  match selectMin (groupQ country year price) (fun a => (0, a.created_at)) db.accounts with
  | none => ((none, "not_available"), db)
  | some acc =>
    reserve_and_settle (setFields db acc.oid (assignUpd now user_id username)) now user_id
      (assignUpd now user_id username acc)

/-- Mirror of `Repo.buy_account_by_id`.  The `ObjectId` parse of the raw
id string is modelled as an `Option Nat` argument: `none` is a string that
fails to parse (the `invalid_id` branch). -/
def buy_account_by_id (db : DB) (now : Nat) (user_id : Int) (username : Option String)
    (oid? : Option Nat) : (Option SoldInfo × String) × DB :=
  match oid? with
  | none => ((none, "invalid_id"), db)
  | some oid =>
    match db.accounts.find? (fun a => a.oid = oid && a.status = "available") with
    | none => ((none, "not_available"), db)
    | some acc =>
      let dbA := setFields db oid (assignUpd now user_id username)
      match acc.price with
      | none => ((none, "no_price"), setFields dbA oid (revertAssign now))
      | some _ =>
        reserve_and_settle dbA now user_id (assignUpd now user_id username acc)

/-- Mirror of `Repo.add_credits`: unconditioned `$inc`, plus a log entry. -/
def add_credits (db : DB) (now : Nat) (user_id : Int) (amount : Int) (by_admin : Int) : DB :=
  { db with
      credits := fun u => if u = user_id then db.credits u + amount else db.credits u
      credit_logs := db.credit_logs ++
        [{ user_id := user_id, amount := amount, by_admin := by_admin, mode := none,
           created_at := now }] }

/-- Mirror of `Repo.set_credits`: unconditioned `$set` of the balance,
plus a log entry with mode "set". -/
def set_credits (db : DB) (now : Nat) (user_id : Int) (credits : Int) (by_admin : Int) : DB :=
  { db with
      credits := fun u => if u = user_id then credits else db.credits u
      credit_logs := db.credit_logs ++
        [{ user_id := user_id, amount := credits, by_admin := by_admin, mode := some "set",
           created_at := now }] }

/-- Replace the first list element satisfying `p` by its image under `f`,
returning the updated element (Mongo `find_one_and_update` with
`ReturnDocument.AFTER`). -/
def updateFirst (p : Deposit → Bool) (f : Deposit → Deposit) : List Deposit → Option Deposit × List Deposit
  | [] => (none, [])
  | d :: rest =>
    if p d then (some (f d), f d :: rest)
    else
      let r := updateFirst p f rest
      (r.1, d :: r.2)

/-- The `$set` document applied by `Repo.mark_deposit`: status, admin id,
timestamp and (when provided) `credits_added`. -/
def depUpd (now : Nat) (status : String) (admin_id : Int) (credits_added : Option Int)
    (d : Deposit) : Deposit :=
  { d with
      status := status
      admin_id := admin_id
      updated_at := now
      credits_added := match credits_added with
        | none => d.credits_added
        | some c => some c }

/-- Mirror of `Repo.mark_deposit`: conditioned on the current status being
"pending"; sets status, admin id, timestamp and (optionally)
`credits_added`.  The `ObjectId` parse is an `Option Nat` argument. -/
def mark_deposit (db : DB) (now : Nat) (deposit_id : Option Nat) (status : String)
    (admin_id : Int) (credits_added : Option Int) : Option Deposit × DB :=
  match deposit_id with
  | none => (none, db)
  | some oid =>
    ((updateFirst (fun d => d.oid = oid && d.status = "pending")
        (depUpd now status admin_id credits_added) db.deposits).1,
      { db with deposits := (updateFirst (fun d => d.oid = oid && d.status = "pending")
          (depUpd now status admin_id credits_added) db.deposits).2 })

/-- One settlement operation, with all of its call arguments. -/
inductive BuyOp where
  | filtered (now : Nat) (user_id : Int) (username : Option String) (country : String)
      (year : Option Int)
  | byGroup (now : Nat) (user_id : Int) (username : Option String) (country : String)
      (year : Option Int) (price : Int)
  | byId (now : Nat) (user_id : Int) (username : Option String) (oid : Option Nat)
deriving Repr

/-- The purchasing user of an operation. -/
def buyUser : BuyOp → Int
  | .filtered _ u _ _ _ => u
  | .byGroup _ u _ _ _ _ => u
  | .byId _ u _ _ => u

/-- Dispatch an operation to its Repo method. -/
def applyBuy (db : DB) : BuyOp → (Option SoldInfo × String) × DB
  | .filtered now u un c y => buy_account_filtered db now u un c y
  | .byGroup now u un c y p => buy_account_by_group db now u un c y p
  | .byId now u un oid => buy_account_by_id db now u un oid

/-- Run a sequence of settlement operations, collecting each call's
returned (annotated account, status) pair. -/
def runBuys (db : DB) : List BuyOp → List (Option SoldInfo × String) × DB
  | [] => ([], db)
  | op :: ops =>
    let r := applyBuy db op
    let rest := runBuys r.2 ops
    (r.1 :: rest.1, rest.2)

/-- The ids of the accounts returned by the successful calls. -/
def okIds (rs : List (Option SoldInfo × String)) : List Nat :=
  rs.filterMap (fun r => match r.1 with
    | some info => some info.account.oid
    | none => none)

/-- Projection of the accounts collection to (id, status) pairs. -/
def statusPairs (db : DB) : List (Nat × String) :=
  db.accounts.map (fun a => (a.oid, a.status))

/-- Number of accounts currently in status `available`. -/
def countAvail (db : DB) : Nat :=
  ((statusPairs db).filter (fun pr => pr.2 = "available")).length

/-- Every account with this id is in status `assigned`. -/
def oidAssigned (db : DB) (id : Nat) : Prop :=
  ∀ pr ∈ statusPairs db, pr.1 = id → pr.2 = "assigned"

/-- Account ids are pairwise distinct (Mongo `_id` uniqueness). -/
def OidsNodup (db : DB) : Prop :=
  (db.accounts.map (fun a => a.oid)).Nodup

/-- What a failed settlement call leaves behind: balances, token counts,
the purchase log, deposits and the credit log are untouched, and (when
account ids are unique) every account keeps its status. -/
def ErrorPreserves (db db' : DB) : Prop :=
  (∀ u, db'.credits u = db.credits u) ∧
  (∀ u, db'.tokens u = db.tokens u) ∧
  db'.purchases = db.purchases ∧
  db'.deposits = db.deposits ∧
  db'.credit_logs = db.credit_logs ∧
  (OidsNodup db → statusPairs db' = statusPairs db)

/-- What a successful settlement call by user `uid` does: one previously
available account (the one returned) becomes assigned, the buyer is
charged `final_price` down to a non-negative balance, one token is
consumed exactly when the discount was used, and one purchase record
carrying the same discount flag is appended. -/
def OkEffect (db db' : DB) (uid : Int) (info : SoldInfo) : Prop :=
  ∃ a0 p,
    a0 ∈ db.accounts ∧ a0.status = "available" ∧ info.account.oid = a0.oid ∧
    statusPairs db' = (statusPairs db).map
      (fun pr => if pr.1 = a0.oid then (pr.1, "assigned") else pr) ∧
    db'.credits uid = db.credits uid - info.final_price ∧
    0 ≤ db'.credits uid ∧
    (∀ v, v ≠ uid → db'.credits v = db.credits v) ∧
    db'.tokens uid = db.tokens uid - (if info.discount_used then 1 else 0) ∧
    (∀ v, v ≠ uid → db'.tokens v = db.tokens v) ∧
    db'.purchases = db.purchases ++ [p] ∧
    p.user_id = uid ∧ p.account_id = info.account.oid ∧
    p.price = info.final_price ∧ p.discount_used = info.discount_used ∧
    info.final_price =
      (if info.discount_used then max 0 (info.original_price - 5) else info.original_price) ∧
    db'.deposits = db.deposits ∧ db'.credit_logs = db.credit_logs

/-- Every settlement call either fails and touches no ledger, or succeeds
with the `OkEffect` delta; in both cases the set of account ids is
unchanged. -/
def BuyOutcomeSpec (db : DB) (uid : Int) (r : (Option SoldInfo × String) × DB) : Prop :=
  r.2.accounts.map (fun a => a.oid) = db.accounts.map (fun a => a.oid) ∧
  ((r.1.2 ≠ "ok" ∧ r.1.1 = none ∧ ErrorPreserves db r.2) ∨
   (∃ info, r.1.1 = some info ∧ r.1.2 = "ok" ∧ OkEffect db r.2 uid info))

/-- Arguments of one `mark_deposit` call (besides the deposit id). -/
structure MarkArgs where
  now : Nat
  status : String
  admin_id : Int
  credits_added : Option Int

/-- Run a sequence of `mark_deposit` calls against the same deposit id,
collecting each call's returned document. -/
def runMarks (db : DB) (oid? : Option Nat) : List MarkArgs → List (Option Deposit) × DB
  | [] => ([], db)
  | a :: rest =>
    let r := mark_deposit db a.now oid? a.status a.admin_id a.credits_added
    let rr := runMarks r.2 oid? rest
    (r.1 :: rr.1, rr.2)

/-- Concrete fixture: an available, priced account. -/
def sampleAcc : Account :=
  { oid := 1, phone := "15550001", country := "US", year := some 2020, price := some 50,
    status := "available", assigned_to := none, sold_to_user_id := none,
    sold_to_username := none, assigned_at := none, created_at := 10, updated_at := 10 }

/-- Concrete fixture: a second, younger account at the same price. -/
def sampleAcc2 : Account :=
  { sampleAcc with oid := 2, created_at := 11 }

/-- Concrete fixture: a cheap account. -/
def cheapAcc : Account :=
  { sampleAcc with oid := 3, price := some 10 }

/-- Concrete fixture: the spec's discount scenario — user 7 with balance
50 and one discount token, one account priced 50. -/
def sampleDB : DB :=
  { accounts := [sampleAcc]
    credits := fun u => if u = 7 then 50 else 0
    tokens := fun u => if u = 7 then 1 else 0
    purchases := [], deposits := [], credit_logs := [] }

/-- Concrete fixture: two equally priced available accounts, rich users. -/
def poolDB : DB :=
  { accounts := [sampleAcc, sampleAcc2]
    credits := fun _ => 200
    tokens := fun _ => 0
    purchases := [], deposits := [], credit_logs := [] }

/-- Concrete fixture: one cheap account and a user with no credits. -/
def brokeDB : DB :=
  { accounts := [cheapAcc]
    credits := fun _ => 0
    tokens := fun _ => 0
    purchases := [], deposits := [], credit_logs := [] }

/-- Concrete fixture: a pending deposit. -/
def pendingDep : Deposit :=
  { oid := 5, user_id := 7, status := "pending", admin_id := 0, credits_added := none,
    created_at := 1, updated_at := 1 }

/-- Concrete fixture: a store holding one pending deposit. -/
def depDB : DB :=
  { accounts := []
    credits := fun _ => 0
    tokens := fun _ => 0
    purchases := [], deposits := [pendingDep], credit_logs := [] }

end SettlementModel

namespace SessionModel

/-
  Model of the `otp_listener` closure registered in
  `AccountManager._connect_client` (`src/bot.py`), for one resource id.
  Sessions for distinct resource ids never interact, so the state is the
  slice of the manager's maps for a single account id: the buyer
  registration, the admin-monitor registration, and membership in the
  `_sold_report_sent` set.
-/

/-- Python's `\w` word-character test (ASCII fragment). -/
def isWordChar (c : Char) : Bool :=
  c.isAlphanum || c = '_'

/-- Right-hand `\b` after a digit run: the next character, if any, is not
a word character. -/
def boundaryOk (rest : List Char) : Bool :=
  match rest with
  | [] => true
  | c :: _ => !isWordChar c

/-- The list starts with at least `n` characters, all digits. -/
def digitsPrefix (n : Nat) (l : List Char) : Bool :=
  (l.take n).length = n && (l.take n).all Char.isDigit

/-- The regex `\b\d{n}\b` matches at the start of this suffix, given the
left boundary is already known to hold. -/
def matchHere (n : Nat) (l : List Char) : Bool :=
  digitsPrefix n l && boundaryOk (l.drop n)

/-- Scan for the leftmost match of `re.search(r"\b(\d{n})\b", ...)`.
`prevIsWord` records whether the character just before the current suffix
is a word character (false at the start of the string). -/
def findRunAux (n : Nat) (prevIsWord : Bool) : List Char → Option (List Char)
  | [] => none
  | c :: rest =>
    if !prevIsWord && matchHere n (c :: rest) then some ((c :: rest).take n)
    else findRunAux n (isWordChar c) rest

/-- Leftmost word-boundary-delimited run of exactly `n` digits. -/
def findRun (n : Nat) (l : List Char) : Option (List Char) :=
  findRunAux n false l

/-- Buyer-path code extraction: `m5 or m6 or m4` in the listener. -/
def extractCode (l : List Char) : Option (List Char) :=
  match findRun 5 l with
  | some c => some c
  | none =>
    match findRun 6 l with
    | some c => some c
    | none => findRun 4 l

/-- Python `str.strip()` applied to the inbound text. -/
def pyStrip (l : List Char) : List Char :=
  ((l.dropWhile Char.isWhitespace).reverse.dropWhile Char.isWhitespace).reverse

/-- The per-account slice of the session manager's state. -/
structure Session where
  buyer : Option Int
  adminMonitor : Option Int
  soldReportSent : Bool
deriving Repr, DecidableEq

/-- One outbound effect of the listener. -/
inductive OutMsg where
  | adminCode (recipient : Int) (code : List Char)
  | buyerDelivery (recipient : Int) (code : List Char) (text : List Char)
  | adminRaw (recipient : Int) (text : List Char)
  | soldReport (code : List Char)
deriving Repr, DecidableEq

/-- Mirror of the `otp_listener` body for one inbound message from the
privileged sender: admin 5-digit forward, then at-most-once buyer
delivery (the buyer registration is popped before the send), then the
raw-text admin forward, then the flag-guarded sold report.  The scheduled
deferred teardown has no effect on this state and is not modelled. -/
def otp_listener (s : Session) (raw : List Char) : Session × List OutMsg :=
  let text := pyStrip raw
  let adminOuts :=
    match s.adminMonitor with
    | some m =>
      match findRun 5 text with
      | some c => [OutMsg.adminCode m c]
      | none => []
    | none => []
  match s.buyer with
  | none => (s, adminOuts)
  | some buyer =>
    match extractCode text with
    | none => (s, adminOuts)
    | some code =>
      let s1 : Session := { s with buyer := none }
      let buyerOut := [OutMsg.buyerDelivery buyer code text]
      let adminRawOut :=
        match s.adminMonitor with
        | some m => if m = buyer then [] else [OutMsg.adminRaw m text]
        | none => []
      if s1.soldReportSent then
        (s1, adminOuts ++ buyerOut ++ adminRawOut)
      else
        ({ s1 with soldReportSent := true },
          adminOuts ++ buyerOut ++ adminRawOut ++ [OutMsg.soldReport code])

/-- Feed a sequence of inbound messages through the listener. -/
def runMsgs (s : Session) : List (List Char) → Session × List OutMsg
  | [] => (s, [])
  | t :: rest =>
    let r := otp_listener s t
    let r2 := runMsgs r.1 rest
    (r2.1, r.2 ++ r2.2)

/-- Recognize a buyer delivery among the outbound effects. -/
def isBuyerDelivery : OutMsg → Bool
  | .buyerDelivery _ _ _ => true
  | _ => false

/-- Recognize a sold report among the outbound effects. -/
def isSoldReport : OutMsg → Bool
  | .soldReport _ => true
  | _ => false

/-- Recognize an admin code forward among the outbound effects. -/
def isAdminCode : OutMsg → Bool
  | .adminCode _ _ => true
  | _ => false

/-- Recognize an admin raw-text forward among the outbound effects. -/
def isAdminRaw : OutMsg → Bool
  | .adminRaw _ _ => true
  | _ => false

/-- Recognize any forward addressed to the admin monitor. -/
def isAdminOut : OutMsg → Bool
  | .adminCode _ _ => true
  | .adminRaw _ _ => true
  | _ => false

/-- Count the outbound effects satisfying `p`. -/
def countP (p : OutMsg → Bool) (l : List OutMsg) : Nat :=
  (l.filter p).length

/-- Spec-side description of one `\b\d{n}\b` occurrence: the text splits
as `pre ++ c ++ post` where `c` is exactly `n` digits, the character just
before `c` (the last of `pre`, or the scan's left context `w0` when `pre`
is empty) is not a word character, and the character just after `c` (the
head of `post`, if any) is not a word character.  Written to compare the
scanner against the spec's "word-boundary-delimited n-digit run". -/
def IsRunSplit (n : Nat) (w0 : Bool) (l pre c : List Char) : Prop :=
  (∃ post, l = pre ++ c ++ post ∧ ∀ x, post.head? = some x → isWordChar x = false) ∧
  c.length = n ∧ c.all Char.isDigit = true ∧
  (pre = [] → w0 = false) ∧
  (∀ x, pre.getLast? = some x → isWordChar x = false)

end SessionModel


namespace SettlementModel

/-- Map congruence for functions that agree everywhere. -/
theorem map_congr_fun {α β : Type} {f g : α → β} (h : ∀ a, f a = g a) :
    ∀ l : List α, l.map f = l.map g := by
  intro l
  induction l with
  | nil => rfl
  | cons x xs ih => simp [h x, ih]

/-- Map congruence for functions that agree on the list's members. -/
theorem map_congr_mem {α β : Type} {f g : α → β} :
    ∀ {l : List α}, (∀ a ∈ l, f a = g a) → l.map f = l.map g := by
  intro l
  induction l with
  | nil => intro _; rfl
  | cons x xs ih =>
    intro h
    simp only [List.map_cons]
    rw [h x (List.mem_cons_self x xs), ih (fun a ha => h a (List.mem_cons_of_mem x ha))]

/-- Two accounts of a list with distinct ids that share an id are equal. -/
theorem nodup_oid_inj {l : List Account} (h : (l.map (fun a => a.oid)).Nodup)
    {a b : Account} (ha : a ∈ l) (hb : b ∈ l) (hoid : a.oid = b.oid) : a = b :=
  List.inj_on_of_nodup_map h ha hb hoid

theorem ltKey_irrefl (k : Int × Nat) : ltKey k k = false := by
  simp [ltKey]

theorem ltKey_asymm {k1 k2 : Int × Nat} (h : ltKey k1 k2 = true) : ltKey k2 k1 = false := by
  simp only [ltKey, Bool.or_eq_true, Bool.and_eq_true, decide_eq_true_eq,
    Bool.or_eq_false_iff, Bool.and_eq_false_iff, decide_eq_false_iff_not] at h ⊢
  omega

theorem ltKey_false_trans {k1 k2 k3 : Int × Nat} (h1 : ltKey k1 k2 = false)
    (h2 : ltKey k2 k3 = false) : ltKey k1 k3 = false := by
  simp only [ltKey, Bool.or_eq_false_iff, Bool.and_eq_false_iff, decide_eq_false_iff_not,
    Decidable.not_not] at h1 h2 ⊢
  omega

/-- When `selectMin` returns nothing, no list member matches the query. -/
theorem selectMin_none {q : Account → Bool} {key : Account → Int × Nat} :
    ∀ {l : List Account}, selectMin q key l = none → ∀ b ∈ l, q b = false := by
  intro l
  induction l with
  | nil => intro _ b hb; cases hb
  | cons x rest ih =>
    intro h b hb
    simp only [selectMin] at h
    cases hrest : selectMin q key rest with
    | none =>
      rw [hrest] at h
      cases hb with
      | head =>
        by_cases hq : q x
        · rw [hq] at h
          simp at h
        · simpa using hq
      | tail _ hmem => exact ih hrest b hmem
    | some m =>
      rw [hrest] at h
      by_cases hq : q x
      · simp only [hq, if_true] at h
        by_cases hlt : ltKey (key m) (key x) = true <;> simp [hlt] at h
      · simp [hq] at h

/-- When `selectMin` returns an account, it is a matching member whose
sort key is minimal among all matching members. -/
theorem selectMin_sound {q : Account → Bool} {key : Account → Int × Nat} :
    ∀ {l : List Account} {a : Account}, selectMin q key l = some a →
      a ∈ l ∧ q a = true ∧ ∀ b ∈ l, q b = true → ltKey (key b) (key a) = false := by
  intro l
  induction l with
  | nil => intro a h; cases h
  | cons x rest ih =>
    intro a h
    simp only [selectMin] at h
    cases hrest : selectMin q key rest with
    | none =>
      rw [hrest] at h
      by_cases hq : q x
      · simp only [hq, if_true] at h
        cases h
        refine ⟨List.mem_cons_self _ _, hq, ?_⟩
        intro b hb hqb
        cases hb with
        | head => exact ltKey_irrefl _
        | tail _ hmem => exact absurd hqb (by simp [selectMin_none hrest b hmem])
      · simp [hq] at h
    | some m =>
      rw [hrest] at h
      obtain ⟨hmem, hqm, hmin⟩ := ih hrest
      by_cases hq : q x
      · simp only [hq, if_true] at h
        by_cases hlt : ltKey (key m) (key x) = true
        · simp only [hlt, if_true] at h
          cases h
          refine ⟨List.mem_cons_of_mem _ hmem, hqm, ?_⟩
          intro b hb hqb
          cases hb with
          | head => exact ltKey_asymm hlt
          | tail _ hmem2 => exact hmin b hmem2 hqb
        · rw [Bool.not_eq_true] at hlt
          simp only [hlt, Bool.false_eq_true, if_false] at h
          cases h
          refine ⟨List.mem_cons_self _ _, hq, ?_⟩
          intro b hb hqb
          cases hb with
          | head => exact ltKey_irrefl _
          | tail _ hmem2 => exact ltKey_false_trans (hmin b hmem2 hqb) hlt
      · simp only [hq, Bool.false_eq_true, if_false] at h
        cases h
        refine ⟨List.mem_cons_of_mem _ hmem, hqm, ?_⟩
        intro b hb hqb
        cases hb with
        | head => exact absurd hqb (by simp [hq])
        | tail _ hmem2 => exact hmin b hmem2 hqb

/-- Case analysis of the shared settlement tail: either the conditioned
balance decrement goes through (charge the buyer, append the purchase
record), or nothing but the compensation happens (token released when one
was reserved, account rolled back to `available`). -/
theorem settle_spec (db : DB) (now : Nat) (uid : Int) (acc : Account) (tok : Bool) :
    ((settle db now uid acc tok).2.deposits = db.deposits ∧
     (settle db now uid acc tok).2.credit_logs = db.credit_logs) ∧
    (((if tok then max 0 (acc.price.getD 0 - 5) else acc.price.getD 0) ≤ db.credits uid ∧
        (settle db now uid acc tok).1 =
          (some ⟨acc, acc.price.getD 0,
              if tok then max 0 (acc.price.getD 0 - 5) else acc.price.getD 0, tok⟩, "ok") ∧
        (settle db now uid acc tok).2.accounts = db.accounts ∧
        (settle db now uid acc tok).2.credits uid =
          db.credits uid - (if tok then max 0 (acc.price.getD 0 - 5) else acc.price.getD 0) ∧
        (∀ v, v ≠ uid → (settle db now uid acc tok).2.credits v = db.credits v) ∧
        (∀ v, (settle db now uid acc tok).2.tokens v = db.tokens v) ∧
        (settle db now uid acc tok).2.purchases = db.purchases ++
          [⟨uid, acc.oid, if tok then max 0 (acc.price.getD 0 - 5) else acc.price.getD 0,
            acc.price.getD 0, tok, acc.phone, acc.country, acc.year, now⟩]) ∨
     (¬ (if tok then max 0 (acc.price.getD 0 - 5) else acc.price.getD 0) ≤ db.credits uid ∧
        (settle db now uid acc tok).1 = (none, "insufficient_credits") ∧
        (settle db now uid acc tok).2.accounts =
          db.accounts.map (fun a => if a.oid = acc.oid then revertAssign now a else a) ∧
        (∀ v, (settle db now uid acc tok).2.credits v = db.credits v) ∧
        (∀ v, (settle db now uid acc tok).2.tokens v =
          if tok = true ∧ v = uid then db.tokens v + 1 else db.tokens v) ∧
        (settle db now uid acc tok).2.purchases = db.purchases)) := by
  by_cases h : (if tok then max 0 (acc.price.getD 0 - 5) else acc.price.getD 0) ≤ db.credits uid
  · refine ⟨⟨?_, ?_⟩, Or.inl ⟨h, ?_, ?_, ?_, ?_, ?_, ?_⟩⟩ <;>
      simp only [settle, h, if_true] <;>
      first
        | (intro v hv; simp [hv])
        | simp
  · refine ⟨⟨?_, ?_⟩, Or.inr ⟨h, ?_, ?_, ?_, ?_, ?_⟩⟩ <;>
      simp only [settle, h, if_false] <;>
      cases tok <;>
      simp [release_token, setFields, revertAssign]

theorem oid_map_assign (db : DB) (o : Nat) (now : Nat) (uid : Int) (un : Option String) :
    (db.accounts.map (fun a => if a.oid = o then assignUpd now uid un a else a)).map
        (fun a => a.oid) =
      db.accounts.map (fun a => a.oid) := by
  simp only [List.map_map]
  apply map_congr_fun
  intro a
  by_cases h : a.oid = o <;> simp [h, assignUpd]

theorem oid_map_assign_revert (db : DB) (o : Nat) (now now2 : Nat) (uid : Int)
    (un : Option String) :
    (((db.accounts.map (fun a => if a.oid = o then assignUpd now uid un a else a)).map
        (fun a => if a.oid = o then revertAssign now2 a else a)).map (fun a => a.oid)) =
      db.accounts.map (fun a => a.oid) := by
  simp only [List.map_map]
  apply map_congr_fun
  intro a
  by_cases h : a.oid = o <;> simp [h, assignUpd, revertAssign]

theorem statusPairs_setFields_assign (db : DB) (o : Nat) (now : Nat) (uid : Int)
    (un : Option String) :
    statusPairs (setFields db o (assignUpd now uid un)) =
      (statusPairs db).map (fun pr => if pr.1 = o then (pr.1, "assigned") else pr) := by
  unfold statusPairs setFields
  simp only [List.map_map]
  apply map_congr_fun
  intro a
  by_cases h : a.oid = o <;> simp [h, assignUpd]

theorem statusPairs_assign_revert (db : DB) (acc : Account) (hmem : acc ∈ db.accounts)
    (hstat : acc.status = "available") (hnd : OidsNodup db)
    (now now2 : Nat) (uid : Int) (un : Option String) :
    ((db.accounts.map (fun a => if a.oid = acc.oid then assignUpd now uid un a else a)).map
        (fun a => if a.oid = acc.oid then revertAssign now2 a else a)).map
        (fun a => (a.oid, a.status)) = statusPairs db := by
  unfold statusPairs
  simp only [List.map_map]
  apply map_congr_mem
  intro a ha
  by_cases h : a.oid = acc.oid
  · have haeq : a = acc := nodup_oid_inj hnd ha hmem h
    subst haeq
    simp [h, assignUpd, revertAssign, hstat]
  · simp [h]

/-- Full effect analysis of one assignment pass (conditioned transition to
`assigned` followed by the settlement tail) relative to the state it runs
in. -/
theorem assign_and_settle_effect (db : DB) (now : Nat) (uid : Int) (un : Option String)
    (acc : Account) (tok : Bool) (hmem : acc ∈ db.accounts) (hstat : acc.status = "available") :
    ((assign_and_settle db now uid un acc tok).2.accounts.map (fun a => a.oid) =
        db.accounts.map (fun a => a.oid)) ∧
    (((assign_and_settle db now uid un acc tok).1 = (none, "insufficient_credits") ∧
      (∀ v, (assign_and_settle db now uid un acc tok).2.credits v = db.credits v) ∧
      (∀ v, (assign_and_settle db now uid un acc tok).2.tokens v =
          if tok = true ∧ v = uid then db.tokens v + 1 else db.tokens v) ∧
      (assign_and_settle db now uid un acc tok).2.purchases = db.purchases ∧
      (assign_and_settle db now uid un acc tok).2.deposits = db.deposits ∧
      (assign_and_settle db now uid un acc tok).2.credit_logs = db.credit_logs ∧
      (OidsNodup db → statusPairs (assign_and_settle db now uid un acc tok).2 = statusPairs db)) ∨
     ((assign_and_settle db now uid un acc tok).1 =
        (some ⟨assignUpd now uid un acc, acc.price.getD 0,
          if tok then max 0 (acc.price.getD 0 - 5) else acc.price.getD 0, tok⟩, "ok") ∧
      (if tok then max 0 (acc.price.getD 0 - 5) else acc.price.getD 0) ≤ db.credits uid ∧
      statusPairs (assign_and_settle db now uid un acc tok).2 =
        (statusPairs db).map (fun pr => if pr.1 = acc.oid then (pr.1, "assigned") else pr) ∧
      (assign_and_settle db now uid un acc tok).2.credits uid =
        db.credits uid - (if tok then max 0 (acc.price.getD 0 - 5) else acc.price.getD 0) ∧
      (∀ v, v ≠ uid → (assign_and_settle db now uid un acc tok).2.credits v = db.credits v) ∧
      (∀ v, (assign_and_settle db now uid un acc tok).2.tokens v = db.tokens v) ∧
      (assign_and_settle db now uid un acc tok).2.purchases = db.purchases ++
        [⟨uid, acc.oid, if tok then max 0 (acc.price.getD 0 - 5) else acc.price.getD 0,
          acc.price.getD 0, tok, acc.phone, acc.country, acc.year, now⟩] ∧
      (assign_and_settle db now uid un acc tok).2.deposits = db.deposits ∧
      (assign_and_settle db now uid un acc tok).2.credit_logs = db.credit_logs)) := by
  have hs := settle_spec (setFields db acc.oid (assignUpd now uid un)) now uid
      (assignUpd now uid un acc) tok
  have hoid : (assignUpd now uid un acc).oid = acc.oid := rfl
  have hprice : (assignUpd now uid un acc).price = acc.price := rfl
  have hphone : (assignUpd now uid un acc).phone = acc.phone := rfl
  have hctry : (assignUpd now uid un acc).country = acc.country := rfl
  have hyear : (assignUpd now uid un acc).year = acc.year := rfl
  rw [hoid, hprice, hphone, hctry, hyear] at hs
  obtain ⟨⟨hdep, hlog⟩, hbr⟩ := hs
  simp only [assign_and_settle]
  cases hbr with
  | inl hok =>
    obtain ⟨hle, h1, haccs, hcuid, hcv, htoks, hpurs⟩ := hok
    refine ⟨?_, Or.inr ⟨h1, hle, ?_, hcuid, hcv, htoks, hpurs, hdep, hlog⟩⟩
    · rw [haccs]
      simp only [setFields]
      exact oid_map_assign db acc.oid now uid un
    · unfold statusPairs
      rw [haccs]
      have hsp := statusPairs_setFields_assign db acc.oid now uid un
      unfold statusPairs at hsp
      exact hsp
  | inr hfail =>
    obtain ⟨hgt, h1, haccs, hcv, htoks, hpurs⟩ := hfail
    have haccs2 : (settle (setFields db acc.oid (assignUpd now uid un)) now uid
        (assignUpd now uid un acc) tok).2.accounts =
        ((db.accounts.map (fun a => if a.oid = acc.oid then assignUpd now uid un a else a)).map
          (fun a => if a.oid = acc.oid then revertAssign now a else a)) := by
      rw [haccs]
      simp only [setFields]
    refine ⟨?_, Or.inl ⟨h1, hcv, htoks, hpurs, hdep, hlog, ?_⟩⟩
    · rw [haccs2]
      exact oid_map_assign_revert db acc.oid now now uid un
    · intro hnd
      unfold statusPairs
      rw [haccs2]
      exact statusPairs_assign_revert db acc hmem hstat hnd now now uid un

theorem availQ_status {c : String} {y : Option Int} {m : Int} {a : Account}
    (h : availQ c y m a = true) : a.status = "available" := by
  unfold availQ at h
  simp only [Bool.and_eq_true, decide_eq_true_eq] at h
  exact h.1.1.1

theorem availQ_price {c : String} {y : Option Int} {m : Int} {a : Account}
    (h : availQ c y m a = true) : ∃ p, a.price = some p ∧ p ≤ m := by
  unfold availQ at h
  simp only [Bool.and_eq_true, decide_eq_true_eq] at h
  have h2 := h.2
  cases hp : a.price with
  | none => rw [hp] at h2; exact absurd h2 (by simp)
  | some p =>
    rw [hp] at h2
    simp only [decide_eq_true_eq] at h2
    exact ⟨p, rfl, h2⟩

theorem availQ_mono {c : String} {y : Option Int} {m1 m2 : Int} {a : Account}
    (h : availQ c y m1 a = true) (hm : m1 ≤ m2) : availQ c y m2 a = true := by
  unfold availQ at h ⊢
  simp only [Bool.and_eq_true] at h ⊢
  refine ⟨h.1, ?_⟩
  have h2 := h.2
  cases hp : a.price with
  | none => rw [hp] at h2; exact absurd h2 (by simp)
  | some p =>
    rw [hp] at h2
    simp only [decide_eq_true_eq] at h2
    show decide (p ≤ m2) = true
    simp only [decide_eq_true_eq]
    omega

theorem groupQ_status {c : String} {y : Option Int} {pr : Int} {a : Account}
    (h : groupQ c y pr a = true) : a.status = "available" := by
  unfold groupQ at h
  simp only [Bool.and_eq_true, decide_eq_true_eq] at h
  exact h.1.1.1

/-- A full-price assignment pass satisfies the outcome contract relative
to its entry state. -/
theorem plain_assign_outcome (db : DB) (now : Nat) (uid : Int) (un : Option String)
    (acc : Account) (hmem : acc ∈ db.accounts) (hstat : acc.status = "available") :
    BuyOutcomeSpec db uid (assign_and_settle db now uid un acc false) := by
  obtain ⟨hmap, hbr⟩ := assign_and_settle_effect db now uid un acc false hmem hstat
  refine ⟨hmap, ?_⟩
  cases hbr with
  | inl hfail =>
    obtain ⟨h1, hc, ht, hp, hd, hl, hsp⟩ := hfail
    refine Or.inl ⟨by rw [h1]; decide, by rw [h1], ⟨hc, ?_, hp, hd, hl, hsp⟩⟩
    intro v
    have := ht v
    simpa using this
  | inr hok =>
    obtain ⟨h1, hle, hsp, hcu, hcv, ht, hp, hd, hl⟩ := hok
    refine Or.inr ⟨_, by rw [h1], by rw [h1], acc,
      ⟨uid, acc.oid, acc.price.getD 0, acc.price.getD 0, false, acc.phone, acc.country,
        acc.year, now⟩, hmem, hstat, rfl, hsp, ?_, ?_, hcv, ?_, fun v _ => ht v, ?_,
      rfl, rfl, rfl, rfl, by simp, hd, hl⟩
    · simpa using hcu
    · have := hcu
      simp only [if_false] at this hle ⊢
      omega
    · simp [ht uid]
    · simpa using hp

/-- A token-discounted assignment pass, run on the state where the token
was just reserved, satisfies the outcome contract relative to the state
before the reservation. -/
theorem discounted_assign_outcome (db : DB) (now : Nat) (uid : Int) (un : Option String)
    (acc : Account)
    (hmem : acc ∈ db.accounts) (hstat : acc.status = "available") :
    BuyOutcomeSpec db uid
      (assign_and_settle
        { db with tokens := fun u => if u = uid then db.tokens u - 1 else db.tokens u }
        now uid un acc true) := by
  obtain ⟨hmap, hbr⟩ := assign_and_settle_effect
    { db with tokens := fun u => if u = uid then db.tokens u - 1 else db.tokens u }
    now uid un acc true hmem hstat
  refine ⟨hmap, ?_⟩
  cases hbr with
  | inl hfail =>
    obtain ⟨h1, hc, ht, hp, hd, hl, hsp⟩ := hfail
    refine Or.inl ⟨by rw [h1]; decide, by rw [h1], ⟨hc, ?_, hp, hd, hl, hsp⟩⟩
    intro v
    have hv := ht v
    by_cases hvu : v = uid
    · rw [hv, if_pos ⟨rfl, hvu⟩]
      show (if v = uid then db.tokens v - 1 else db.tokens v) + 1 = db.tokens v
      rw [if_pos hvu]
      omega
    · rw [hv, if_neg (by simp [hvu])]
      show (if v = uid then db.tokens v - 1 else db.tokens v) = db.tokens v
      rw [if_neg hvu]
  | inr hok =>
    obtain ⟨h1, hle, hsp, hcu, hcv, ht, hp, hd, hl⟩ := hok
    refine Or.inr ⟨_, by rw [h1], by rw [h1], acc,
      ⟨uid, acc.oid, max 0 (acc.price.getD 0 - 5), acc.price.getD 0, true, acc.phone,
        acc.country, acc.year, now⟩, hmem, hstat, rfl, hsp, ?_, ?_, hcv, ?_, ?_, ?_,
      rfl, rfl, rfl, rfl, by simp, hd, hl⟩
    · simpa using hcu
    · have := hcu
      simp only [if_true] at this hle ⊢
      omega
    · have := ht uid
      simp only [if_pos rfl] at this
      rw [this]
      simp
    · intro v hvu
      have := ht v
      simp only [if_neg hvu] at this
      exact this
    · simpa using hp

/-- The full-price pass satisfies the outcome contract relative to its
entry state, for any budget. -/
theorem full_price_pass_outcome (db : DB) (now : Nat) (uid : Int) (un : Option String)
    (c : String) (y : Option Int) (cr : Int) :
    BuyOutcomeSpec db uid (full_price_pass db now uid un c y cr) := by
  unfold full_price_pass
  cases hsel : selectMin (availQ c y cr) keyOf db.accounts with
  | none =>
    simp only [hsel]
    refine ⟨rfl, Or.inl ⟨?_, rfl, fun u => rfl, fun u => rfl, rfl, rfl, rfl, fun _ => rfl⟩⟩
    show ("no_affordable" : String) ≠ "ok"
    decide
  | some acc =>
    simp only [hsel]
    obtain ⟨hm, hq, _⟩ := selectMin_sound hsel
    exact plain_assign_outcome db now uid un acc hm (availQ_status hq)

/-- The outcome contract transfers backwards across a state change that
only re-expresses the same ledgers. -/
theorem outcome_trans (db dbx : DB) (uid : Int) (r : (Option SoldInfo × String) × DB)
    (hacc : dbx.accounts = db.accounts)
    (hcred : ∀ v, dbx.credits v = db.credits v)
    (htok : ∀ v, dbx.tokens v = db.tokens v)
    (hpur : dbx.purchases = db.purchases)
    (hdep : dbx.deposits = db.deposits)
    (hlog : dbx.credit_logs = db.credit_logs)
    (h : BuyOutcomeSpec dbx uid r) : BuyOutcomeSpec db uid r := by
  obtain ⟨hmap, hbr⟩ := h
  have hsp : statusPairs dbx = statusPairs db := by unfold statusPairs; rw [hacc]
  have hnd : OidsNodup db → OidsNodup dbx := by unfold OidsNodup; rw [hacc]; exact id
  refine ⟨by rw [hmap, hacc], ?_⟩
  cases hbr with
  | inl e =>
    obtain ⟨h1, h2, ec, et, ep, ed, el, es⟩ := e
    exact Or.inl ⟨h1, h2, fun u => (ec u).trans (hcred u), fun u => (et u).trans (htok u),
      ep.trans hpur, ed.trans hdep, el.trans hlog, fun nd => (es (hnd nd)).trans hsp⟩
  | inr k =>
    obtain ⟨info, hi1, hi2, a0, p, km, ks, ko, ksp, kcu, knn, kcv, ktu, ktv, kpu,
      kp1, kp2, kp3, kp4, kfp, kd, kl⟩ := k
    refine Or.inr ⟨info, hi1, hi2, a0, p, ?_, ks, ko, by rw [ksp, hsp], ?_, knn,
      ?_, ?_, ?_, kpu.trans (by rw [hpur]), kp1, kp2, kp3, kp4, kfp,
      kd.trans hdep, kl.trans hlog⟩
    · rw [← hacc]; exact km
    · rw [kcu, hcred uid]
    · intro v hv; rw [kcv v hv, hcred v]
    · rw [ktu, htok uid]
    · intro v hv; rw [ktv v hv, htok v]

/-- Token reservation then settlement, run after the conditioned
assignment, satisfies the outcome contract. -/
theorem reserve_assign_outcome (db : DB) (now : Nat) (uid : Int) (un : Option String)
    (acc : Account) (hmem : acc ∈ db.accounts) (hstat : acc.status = "available") :
    BuyOutcomeSpec db uid
      (reserve_and_settle (setFields db acc.oid (assignUpd now uid un)) now uid
        (assignUpd now uid un acc)) := by
  by_cases htk : 1 ≤ db.tokens uid
  · have heq : reserve_and_settle (setFields db acc.oid (assignUpd now uid un)) now uid
        (assignUpd now uid un acc) =
        assign_and_settle
          { db with tokens := fun u => if u = uid then db.tokens u - 1 else db.tokens u }
          now uid un acc true := by
      unfold reserve_and_settle assign_and_settle reserve_token
      simp only [setFields, htk, if_true]
    rw [heq]
    exact discounted_assign_outcome db now uid un acc hmem hstat
  · have heq : reserve_and_settle (setFields db acc.oid (assignUpd now uid un)) now uid
        (assignUpd now uid un acc) =
        assign_and_settle db now uid un acc false := by
      unfold reserve_and_settle assign_and_settle reserve_token
      simp only [setFields, htk, if_false]
    rw [heq]
    exact plain_assign_outcome db now uid un acc hmem hstat

/-- `buy_account_filtered` satisfies the outcome contract. -/
theorem buy_account_filtered_outcome (db : DB) (now : Nat) (uid : Int) (un : Option String)
    (c : String) (y : Option Int) :
    BuyOutcomeSpec db uid (buy_account_filtered db now uid un c y) := by
  unfold buy_account_filtered
  by_cases htk : 1 ≤ db.tokens uid
  · simp only [reserve_token, htk, if_true]
    cases hsel : selectMin (availQ c y (db.credits uid + 5)) keyOf db.accounts with
    | none =>
      simp only [hsel]
      refine outcome_trans db
        (release_token
          { db with tokens := fun u => if u = uid then db.tokens u - 1 else db.tokens u } uid)
        uid _ rfl (fun v => rfl) ?_ rfl rfl rfl
        (full_price_pass_outcome _ now uid un c y (db.credits uid))
      intro v
      by_cases hv : v = uid
      · show (if v = uid
            then (if v = uid then db.tokens v - 1 else db.tokens v) + 1
            else if v = uid then db.tokens v - 1 else db.tokens v) = db.tokens v
        rw [if_pos hv, if_pos hv]
        omega
      · show (if v = uid
            then (if v = uid then db.tokens v - 1 else db.tokens v) + 1
            else if v = uid then db.tokens v - 1 else db.tokens v) = db.tokens v
        rw [if_neg hv, if_neg hv]
    | some acc =>
      simp only [hsel]
      obtain ⟨hm, hq, _⟩ := selectMin_sound hsel
      exact discounted_assign_outcome db now uid un acc hm (availQ_status hq)
  · simp only [reserve_token, htk, if_false]
    exact full_price_pass_outcome db now uid un c y (db.credits uid)

/-- `buy_account_by_group` satisfies the outcome contract. -/
theorem buy_account_by_group_outcome (db : DB) (now : Nat) (uid : Int) (un : Option String)
    (c : String) (y : Option Int) (pr : Int) :
    BuyOutcomeSpec db uid (buy_account_by_group db now uid un c y pr) := by
  unfold buy_account_by_group
  cases hsel : selectMin (groupQ c y pr) (fun a => (0, a.created_at)) db.accounts with
  | none =>
    simp only [hsel]
    refine ⟨rfl, Or.inl ⟨?_, rfl, fun u => rfl, fun u => rfl, rfl, rfl, rfl, fun _ => rfl⟩⟩
    show ("not_available" : String) ≠ "ok"
    decide
  | some acc =>
    simp only [hsel]
    obtain ⟨hm, hq, _⟩ := selectMin_sound hsel
    exact reserve_assign_outcome db now uid un acc hm (groupQ_status hq)

/-- `buy_account_by_id` satisfies the outcome contract. -/
theorem buy_account_by_id_outcome (db : DB) (now : Nat) (uid : Int) (un : Option String)
    (oid? : Option Nat) :
    BuyOutcomeSpec db uid (buy_account_by_id db now uid un oid?) := by
  unfold buy_account_by_id
  cases oid? with
  | none =>
    refine ⟨rfl, Or.inl ⟨?_, rfl, fun u => rfl, fun u => rfl, rfl, rfl, rfl, fun _ => rfl⟩⟩
    show ("invalid_id" : String) ≠ "ok"
    decide
  | some oid =>
    cases hfind : db.accounts.find? (fun a => a.oid = oid && a.status = "available") with
    | none =>
      simp only [hfind]
      refine ⟨rfl, Or.inl ⟨?_, rfl, fun u => rfl, fun u => rfl, rfl, rfl, rfl, fun _ => rfl⟩⟩
      show ("not_available" : String) ≠ "ok"
      decide
    | some acc =>
      simp only [hfind]
      have hmem := List.mem_of_find?_eq_some hfind
      have hpred := List.find?_some hfind
      simp only [Bool.and_eq_true, decide_eq_true_eq] at hpred
      obtain ⟨hoid, hstat⟩ := hpred
      subst hoid
      cases hp : acc.price with
      | none =>
        simp only [hp]
        refine ⟨?_, Or.inl ⟨?_, rfl, fun u => rfl, fun u => rfl, rfl, rfl, rfl, ?_⟩⟩
        · show (((db.accounts.map
              (fun a => if a.oid = acc.oid then assignUpd now uid un a else a)).map
              (fun a => if a.oid = acc.oid then revertAssign now a else a)).map
              (fun a => a.oid)) = db.accounts.map (fun a => a.oid)
          exact oid_map_assign_revert db acc.oid now now uid un
        · show ("no_price" : String) ≠ "ok"
          decide
        · intro hnd
          show (((db.accounts.map
              (fun a => if a.oid = acc.oid then assignUpd now uid un a else a)).map
              (fun a => if a.oid = acc.oid then revertAssign now a else a)).map
              (fun a => (a.oid, a.status))) = statusPairs db
          exact statusPairs_assign_revert db acc hmem hstat hnd now now uid un
      | some pr0 =>
        simp only [hp]
        exact reserve_assign_outcome db now uid un acc hmem hstat

/-- Every settlement operation satisfies the outcome contract. -/
theorem applyBuy_outcome (db : DB) (op : BuyOp) :
    BuyOutcomeSpec db (buyUser op) (applyBuy db op) := by
  cases op with
  | filtered now u un c y => exact buy_account_filtered_outcome db now u un c y
  | byGroup now u un c y pr => exact buy_account_by_group_outcome db now u un c y pr
  | byId now u un oid => exact buy_account_by_id_outcome db now u un oid

theorem statusPairs_fst (db : DB) :
    (statusPairs db).map (fun pr => pr.1) = db.accounts.map (fun a => a.oid) := by
  unfold statusPairs
  rw [List.map_map]
  rfl

/-- Assigning the one pair that carries an id removes exactly one
`available` entry from a pair list with distinct ids. -/
theorem countAvailP_assign : ∀ (l : List (Nat × String)) (o : Nat),
    (l.map (fun pr => pr.1)).Nodup → (o, "available") ∈ l →
    ((l.map (fun pr => if pr.1 = o then (pr.1, "assigned") else pr)).filter
        (fun pr => pr.2 = "available")).length + 1 =
      (l.filter (fun pr => pr.2 = "available")).length := by
  intro l
  induction l with
  | nil => intro o _ hmem; cases hmem
  | cons x rest ih =>
    intro o hnd hmem
    simp only [List.map_cons, List.nodup_cons, List.mem_map] at hnd
    obtain ⟨hx, hndrest⟩ := hnd
    cases hmem with
    | head =>
      have hrest : (rest.map (fun pr => if pr.1 = o then (pr.1, "assigned") else pr)) = rest := by
        have hmm : ∀ pr ∈ rest, (if pr.1 = o then (pr.1, "assigned") else pr) = pr := by
          intro pr hpr
          refine if_neg (fun he => hx ⟨pr, hpr, he⟩)
        calc rest.map (fun pr => if pr.1 = o then (pr.1, "assigned") else pr)
            = rest.map id := map_congr_mem hmm
          _ = rest := List.map_id rest
      simp [hrest, List.filter_cons]
    | tail _ hmem2 =>
      have hxo : ¬ x.1 = o := fun he => hx ⟨(o, "available"), hmem2, he.symm⟩
      have hr := ih o hndrest hmem2
      simp only [List.map_cons, if_neg hxo, List.filter_cons]
      by_cases hav : x.2 = "available"
      · simp [hav]
        omega
      · simp [hav]
        exact hr

theorem applyBuy_nodup (db : DB) (op : BuyOp) (hnd : OidsNodup db) :
    OidsNodup (applyBuy db op).2 := by
  unfold OidsNodup at hnd ⊢
  rw [(applyBuy_outcome db op).1]
  exact hnd

theorem applyBuy_assigned_persist (db : DB) (op : BuyOp) (hnd : OidsNodup db) (id : Nat)
    (h : oidAssigned db id) : oidAssigned (applyBuy db op).2 id := by
  obtain ⟨_, hbr⟩ := applyBuy_outcome db op
  cases hbr with
  | inl e =>
    obtain ⟨_, _, _, _, _, _, _, hsp⟩ := e
    unfold oidAssigned at h ⊢
    rw [hsp hnd]
    exact h
  | inr k =>
    obtain ⟨info, _, _, a0, p, _, _, _, hsp, _⟩ := k
    unfold oidAssigned at h ⊢
    rw [hsp]
    intro pr hpr hid
    obtain ⟨pr0, hpr0, hpr0e⟩ := List.mem_map.mp hpr
    by_cases ho : pr0.1 = a0.oid
    · rw [← hpr0e]
      simp [ho]
    · rw [← hpr0e] at hid ⊢
      simp only [if_neg ho] at hid ⊢
      exact h pr0 hpr0 hid

theorem applyBuy_ok_fresh (db : DB) (op : BuyOp) (info : SoldInfo)
    (hok : (applyBuy db op).1.1 = some info) : ¬ oidAssigned db info.account.oid := by
  obtain ⟨_, hbr⟩ := applyBuy_outcome db op
  cases hbr with
  | inl e =>
    rw [e.2.1] at hok
    cases hok
  | inr k =>
    obtain ⟨info2, hi1, _, a0, p, km, ks, ko, _⟩ := k
    rw [hi1] at hok
    cases hok
    intro h
    have hmem : (a0.oid, a0.status) ∈ statusPairs db :=
      List.mem_map_of_mem (fun a => (a.oid, a.status)) km
    have h2 := h (a0.oid, a0.status) hmem ko.symm
    rw [ks] at h2
    simp at h2

theorem applyBuy_ok_assigned (db : DB) (op : BuyOp) (info : SoldInfo)
    (hok : (applyBuy db op).1.1 = some info) :
    oidAssigned (applyBuy db op).2 info.account.oid := by
  obtain ⟨_, hbr⟩ := applyBuy_outcome db op
  cases hbr with
  | inl e =>
    rw [e.2.1] at hok
    cases hok
  | inr k =>
    obtain ⟨info2, hi1, _, a0, p, km, ks, ko, hsp, _⟩ := k
    rw [hi1] at hok
    cases hok
    unfold oidAssigned
    rw [hsp]
    intro pr hpr hid
    obtain ⟨pr0, hpr0, hpr0e⟩ := List.mem_map.mp hpr
    by_cases ho : pr0.1 = a0.oid
    · rw [← hpr0e]
      simp [ho]
    · rw [← hpr0e] at hid
      simp only [if_neg ho] at hid
      exact absurd (hid.trans ko) ho

theorem applyBuy_count_none (db : DB) (op : BuyOp) (hnd : OidsNodup db)
    (hr : (applyBuy db op).1.1 = none) :
    countAvail (applyBuy db op).2 = countAvail db := by
  obtain ⟨_, hbr⟩ := applyBuy_outcome db op
  cases hbr with
  | inl e =>
    obtain ⟨_, _, _, _, _, _, _, hsp⟩ := e
    unfold countAvail
    rw [hsp hnd]
  | inr k =>
    obtain ⟨info, hi1, _⟩ := k
    rw [hi1] at hr
    cases hr

theorem applyBuy_count_some (db : DB) (op : BuyOp) (info : SoldInfo) (hnd : OidsNodup db)
    (hr : (applyBuy db op).1.1 = some info) :
    countAvail (applyBuy db op).2 + 1 = countAvail db := by
  obtain ⟨_, hbr⟩ := applyBuy_outcome db op
  cases hbr with
  | inl e =>
    rw [e.2.1] at hr
    cases hr
  | inr k =>
    obtain ⟨info2, hi1, _, a0, p, km, ks, ko, hsp, _⟩ := k
    unfold countAvail
    rw [hsp]
    apply countAvailP_assign
    · rw [statusPairs_fst]
      exact hnd
    · have hmem : (a0.oid, a0.status) ∈ statusPairs db :=
        List.mem_map_of_mem (fun a => (a.oid, a.status)) km
      rw [ks] at hmem
      exact hmem

theorem okIds_cons (r : Option SoldInfo × String) (rs : List (Option SoldInfo × String)) :
    okIds (r :: rs) = (match r.1 with
      | some info => info.account.oid :: okIds rs
      | none => okIds rs) := by
  cases hr : r.1 with
  | none => simp [okIds, List.filterMap_cons, hr]
  | some info => simp [okIds, List.filterMap_cons, hr]

/-- Run-level invariants of the settlement engine, under `_id`
uniqueness: ids stay unique; an account assigned at an operation boundary
stays assigned; successful calls consume available accounts one-for-one;
the successful calls return pairwise distinct ids that are all assigned
at the end; and an id that is already assigned is never returned again. -/
theorem runBuys_invariants : ∀ (ops : List BuyOp) (db : DB), OidsNodup db →
    OidsNodup (runBuys db ops).2 ∧
    (∀ id, oidAssigned db id → oidAssigned (runBuys db ops).2 id) ∧
    countAvail (runBuys db ops).2 + (okIds (runBuys db ops).1).length = countAvail db ∧
    (okIds (runBuys db ops).1).Nodup ∧
    (∀ id ∈ okIds (runBuys db ops).1, oidAssigned (runBuys db ops).2 id) ∧
    (∀ id, oidAssigned db id → id ∉ okIds (runBuys db ops).1) := by
  intro ops
  induction ops with
  | nil =>
    intro db hnd
    refine ⟨hnd, fun id h => h, by simp [runBuys, okIds], by simp [runBuys, okIds],
      ?_, ?_⟩ <;> simp [runBuys, okIds]
  | cons op ops ih =>
    intro db hnd
    have hnd1 : OidsNodup (applyBuy db op).2 := applyBuy_nodup db op hnd
    obtain ⟨jnd, jpers, jcount, jnodup, jassigned, jfresh⟩ := ih (applyBuy db op).2 hnd1
    have hrun : runBuys db (op :: ops) =
        ((applyBuy db op).1 :: (runBuys (applyBuy db op).2 ops).1,
          (runBuys (applyBuy db op).2 ops).2) := rfl
    rw [hrun]
    cases hr : (applyBuy db op).1.1 with
    | none =>
      have hids : okIds ((applyBuy db op).1 :: (runBuys (applyBuy db op).2 ops).1) =
          okIds (runBuys (applyBuy db op).2 ops).1 := by
        rw [okIds_cons, hr]
      simp only [hids]
      have hcnt : countAvail (applyBuy db op).2 = countAvail db :=
        applyBuy_count_none db op hnd hr
      refine ⟨jnd, ?_, by rw [jcount, hcnt], jnodup, jassigned, ?_⟩
      · intro id h
        exact jpers id (applyBuy_assigned_persist db op hnd id h)
      · intro id h
        exact jfresh id (applyBuy_assigned_persist db op hnd id h)
    | some info =>
      have hids : okIds ((applyBuy db op).1 :: (runBuys (applyBuy db op).2 ops).1) =
          info.account.oid :: okIds (runBuys (applyBuy db op).2 ops).1 := by
        rw [okIds_cons, hr]
      simp only [hids]
      have hcnt : countAvail (applyBuy db op).2 + 1 = countAvail db :=
        applyBuy_count_some db op info hnd hr
      have hassigned1 : oidAssigned (applyBuy db op).2 info.account.oid :=
        applyBuy_ok_assigned db op info hr
      refine ⟨jnd, ?_, ?_, ?_, ?_, ?_⟩
      · intro id h
        exact jpers id (applyBuy_assigned_persist db op hnd id h)
      · simp only [List.length_cons]
        omega
      · refine List.Nodup.cons ?_ jnodup
        exact jfresh info.account.oid hassigned1
      · intro id hid
        cases hid with
        | head => exact jpers info.account.oid hassigned1
        | tail _ h2 => exact jassigned id h2
      · intro id h hmem
        cases hmem with
        | head => exact applyBuy_ok_fresh db op info hr h
        | tail _ h2 =>
          exact jfresh id (applyBuy_assigned_persist db op hnd id h) h2

/-- C1: each resource record moves from Available to Assigned at most
once across any sequence of purchase operations (an assigned record never
reverts at an operation boundary), at most `countAvail db` attempts
succeed, and the successful attempts return pairwise distinct resource
ids. -/
theorem C1_conditioned_assignment_no_double_sale (db : DB) (ops : List BuyOp)
    (hnd : OidsNodup db) :
    (∀ id, oidAssigned db id → oidAssigned (runBuys db ops).2 id) ∧
    (okIds (runBuys db ops).1).Nodup ∧
    (okIds (runBuys db ops).1).length + countAvail (runBuys db ops).2 = countAvail db ∧
    (okIds (runBuys db ops).1).length ≤ countAvail db := by
  obtain ⟨_, hpers, hcount, hnodup, _, _⟩ := runBuys_invariants ops db hnd
  exact ⟨hpers, hnodup, by omega, by omega⟩

/-- C1 witness: two equally priced accounts, three purchase attempts. -/
theorem C1_witness :
    OidsNodup poolDB ∧
    ((∀ id, oidAssigned poolDB id →
        oidAssigned (runBuys poolDB
          [BuyOp.filtered 99 7 none "US" (some 2020),
           BuyOp.byId 100 8 none (some 2),
           BuyOp.filtered 101 9 none "US" (some 2020)]).2 id) ∧
      (okIds (runBuys poolDB
          [BuyOp.filtered 99 7 none "US" (some 2020),
           BuyOp.byId 100 8 none (some 2),
           BuyOp.filtered 101 9 none "US" (some 2020)]).1).Nodup ∧
      (okIds (runBuys poolDB
          [BuyOp.filtered 99 7 none "US" (some 2020),
           BuyOp.byId 100 8 none (some 2),
           BuyOp.filtered 101 9 none "US" (some 2020)]).1).length +
        countAvail (runBuys poolDB
          [BuyOp.filtered 99 7 none "US" (some 2020),
           BuyOp.byId 100 8 none (some 2),
           BuyOp.filtered 101 9 none "US" (some 2020)]).2 = countAvail poolDB ∧
      (okIds (runBuys poolDB
          [BuyOp.filtered 99 7 none "US" (some 2020),
           BuyOp.byId 100 8 none (some 2),
           BuyOp.filtered 101 9 none "US" (some 2020)]).1).length ≤ countAvail poolDB) :=
  ⟨by unfold OidsNodup; decide,
    C1_conditioned_assignment_no_double_sale poolDB
      [BuyOp.filtered 99 7 none "US" (some 2020),
       BuyOp.byId 100 8 none (some 2),
       BuyOp.filtered 101 9 none "US" (some 2020)] (by unfold OidsNodup; decide)⟩

/-- C2 counterexample: a `buy_account_by_id` call that returns
`insufficient_credits` leaves the record with `sold_to_user_id` /
`sold_to_username` overwritten by the failed attempt, so the record is
not field-for-field as it was before the call. -/
theorem C2_counterexample :
    (buy_account_by_id brokeDB 99 7 (some "bob") (some 3)).1.2 = "insufficient_credits" ∧
    brokeDB.accounts.map (fun a => (a.sold_to_user_id, a.sold_to_username)) =
      [(none, none)] ∧
    (buy_account_by_id brokeDB 99 7 (some "bob") (some 3)).2.accounts.map
        (fun a => (a.sold_to_user_id, a.sold_to_username)) =
      [(some 7, some "bob")] := by
  decide

/-- C2 amended: every error return (`invalid_id`, `not_available`,
`no_price`, `no_affordable`, `insufficient_credits`) leaves the balances,
token counts, purchase log and every record's status exactly as before
the call and returns no account; the failed record's `sold_to_*` and
timestamp fields may still be overwritten. -/
theorem C2_error_preserves_ledgers (db : DB) (op : BuyOp) (hnd : OidsNodup db)
    (herr : (applyBuy db op).1.2 ≠ "ok") :
    (∀ u, (applyBuy db op).2.credits u = db.credits u) ∧
    (∀ u, (applyBuy db op).2.tokens u = db.tokens u) ∧
    (applyBuy db op).2.purchases = db.purchases ∧
    statusPairs (applyBuy db op).2 = statusPairs db ∧
    (applyBuy db op).1.1 = none := by
  obtain ⟨_, hbr⟩ := applyBuy_outcome db op
  cases hbr with
  | inl e =>
    obtain ⟨_, hnone, ec, et, ep, _, _, es⟩ := e
    exact ⟨ec, et, ep, es hnd, hnone⟩
  | inr k =>
    obtain ⟨info, _, hok, _⟩ := k
    exact absurd hok herr

/-- C2 witness: the broke-user call fails and preserves the ledgers. -/
theorem C2_witness :
    (OidsNodup brokeDB ∧
      (applyBuy brokeDB (BuyOp.byId 99 7 (some "bob") (some 3))).1.2 ≠ "ok") ∧
    ((∀ u, (applyBuy brokeDB (BuyOp.byId 99 7 (some "bob") (some 3))).2.credits u =
        brokeDB.credits u) ∧
      (∀ u, (applyBuy brokeDB (BuyOp.byId 99 7 (some "bob") (some 3))).2.tokens u =
        brokeDB.tokens u) ∧
      (applyBuy brokeDB (BuyOp.byId 99 7 (some "bob") (some 3))).2.purchases =
        brokeDB.purchases ∧
      statusPairs (applyBuy brokeDB (BuyOp.byId 99 7 (some "bob") (some 3))).2 =
        statusPairs brokeDB ∧
      (applyBuy brokeDB (BuyOp.byId 99 7 (some "bob") (some 3))).1.1 = none) :=
  ⟨⟨by unfold OidsNodup; decide, by decide⟩,
    C2_error_preserves_ledgers brokeDB (BuyOp.byId 99 7 (some "bob") (some 3))
      (by unfold OidsNodup; decide) (by decide)⟩

/-- C3 counterexample: `set_credits` is an unconditioned write, so an
admin call with a negative amount drives a non-negative balance negative
(the admin input flow explicitly accepts negative amounts). -/
theorem C3_counterexample :
    0 ≤ brokeDB.credits 1 ∧ (set_credits brokeDB 99 1 (-5) 11).credits 1 < 0 := by
  decide

/-- C3 amended: under the settlement operations alone, a balance that
starts non-negative stays non-negative, because every debit is a single
conditioned decrement. -/
theorem C3_settlement_balance_nonneg (db : DB) (ops : List BuyOp) (u : Int)
    (h : 0 ≤ db.credits u) : 0 ≤ (runBuys db ops).2.credits u := by
  induction ops generalizing db with
  | nil => exact h
  | cons op ops ih =>
    have hstep : 0 ≤ (applyBuy db op).2.credits u := by
      obtain ⟨_, hbr⟩ := applyBuy_outcome db op
      cases hbr with
      | inl e => rw [e.2.2.1 u]; exact h
      | inr k =>
        obtain ⟨info, _, _, a0, p, _, _, _, _, kcu, knn, kcv, _⟩ := k
        by_cases hu : u = buyUser op
        · rw [hu]; exact knn
        · rw [kcv u hu]; exact h
    exact ih _ hstep

/-- C3 witness: the scenario store with three operations. -/
theorem C3_witness :
    0 ≤ sampleDB.credits 7 ∧
    0 ≤ (runBuys sampleDB
      [BuyOp.filtered 99 7 (some "bob") "US" (some 2020),
       BuyOp.byId 100 7 none (some 1)]).2.credits 7 :=
  ⟨by decide,
    C3_settlement_balance_nonneg sampleDB
      [BuyOp.filtered 99 7 (some "bob") "US" (some 2020),
       BuyOp.byId 100 7 none (some 1)] 7 (by decide)⟩

/-- C4: a discount token is net-consumed (count decremented by exactly
one) precisely on a successful call whose appended purchase record has
`discount_used = true`; every non-purchasing path leaves the token count
and the purchase log untouched. -/
theorem C4_token_consumed_iff_discount (db : DB) (op : BuyOp) :
    (∀ info, (applyBuy db op).1.1 = some info →
      ∃ p, (applyBuy db op).2.purchases = db.purchases ++ [p] ∧
        p.discount_used = info.discount_used ∧
        p.user_id = buyUser op ∧
        (applyBuy db op).2.tokens (buyUser op) =
          db.tokens (buyUser op) - (if info.discount_used then 1 else 0) ∧
        (∀ v, v ≠ buyUser op → (applyBuy db op).2.tokens v = db.tokens v)) ∧
    ((applyBuy db op).1.1 = none →
      (∀ v, (applyBuy db op).2.tokens v = db.tokens v) ∧
      (applyBuy db op).2.purchases = db.purchases) := by
  obtain ⟨_, hbr⟩ := applyBuy_outcome db op
  constructor
  · intro info hok
    cases hbr with
    | inl e =>
      rw [e.2.1] at hok
      cases hok
    | inr k =>
      obtain ⟨info2, hi1, _, a0, p, km, ks, ko, ksp, kcu, knn, kcv, ktu, ktv, kpu,
        kp1, kp2, kp3, kp4, kfp, kd, kl⟩ := k
      rw [hi1] at hok
      cases hok
      exact ⟨p, kpu, kp4, kp1, ktu, ktv⟩
  · intro hnone
    cases hbr with
    | inl e => exact ⟨e.2.2.2.1, e.2.2.2.2.1⟩
    | inr k =>
      obtain ⟨info2, hi1, _⟩ := k
      rw [hi1] at hnone
      cases hnone

/-- C4 witness: the discount scenario consumes exactly one token and the
appended purchase record carries `discount_used = true`. -/
theorem C4_witness :
    ((applyBuy sampleDB (BuyOp.filtered 99 7 (some "bob") "US" (some 2020))).1.1 =
      some ⟨assignUpd 99 7 (some "bob") sampleAcc, 50, 45, true⟩) ∧
    (∃ p, (applyBuy sampleDB (BuyOp.filtered 99 7 (some "bob") "US" (some 2020))).2.purchases =
        sampleDB.purchases ++ [p] ∧
      p.discount_used = (⟨assignUpd 99 7 (some "bob") sampleAcc, 50, 45, true⟩ :
        SoldInfo).discount_used ∧
      p.user_id = buyUser (BuyOp.filtered 99 7 (some "bob") "US" (some 2020)) ∧
      (applyBuy sampleDB (BuyOp.filtered 99 7 (some "bob") "US" (some 2020))).2.tokens
          (buyUser (BuyOp.filtered 99 7 (some "bob") "US" (some 2020))) =
        sampleDB.tokens (buyUser (BuyOp.filtered 99 7 (some "bob") "US" (some 2020))) -
          (if (⟨assignUpd 99 7 (some "bob") sampleAcc, 50, 45, true⟩ :
            SoldInfo).discount_used then 1 else 0) ∧
      (∀ v, v ≠ buyUser (BuyOp.filtered 99 7 (some "bob") "US" (some 2020)) →
        (applyBuy sampleDB (BuyOp.filtered 99 7 (some "bob") "US" (some 2020))).2.tokens v =
          sampleDB.tokens v)) :=
  ⟨by decide,
    (C4_token_consumed_iff_discount sampleDB
      (BuyOp.filtered 99 7 (some "bob") "US" (some 2020))).1
      ⟨assignUpd 99 7 (some "bob") sampleAcc, 50, 45, true⟩ (by decide)⟩

theorem selectMin_none_sub {q1 q2 : Account → Bool} {key : Account → Int × Nat}
    {l : List Account} (himp : ∀ a, q1 a = true → q2 a = true)
    (h : selectMin q2 key l = none) : selectMin q1 key l = none := by
  cases h2 : selectMin q1 key l with
  | none => rfl
  | some a =>
    obtain ⟨hm, hq, _⟩ := selectMin_sound h2
    have hf := selectMin_none h a hm
    rw [himp a hq] at hf
    cases hf

/-- What the full-price pass reports, relative to its entry state: on
`no_affordable` nothing matched the query at this budget; on success the
返回ed account is a cheapest matching one and the buyer is charged the
full price with no discount. -/
theorem full_price_pass_facts (dbx : DB) (now : Nat) (uid : Int) (un : Option String)
    (c : String) (y : Option Int) (cr : Int) :
    ((full_price_pass dbx now uid un c y cr).1.2 = "no_affordable" →
      ∀ a ∈ dbx.accounts, availQ c y cr a = false) ∧
    (∀ info, (full_price_pass dbx now uid un c y cr).1.1 = some info →
      (full_price_pass dbx now uid un c y cr).1.2 = "ok" ∧
      info.discount_used = false ∧
      info.final_price = info.original_price ∧
      (full_price_pass dbx now uid un c y cr).2.credits uid =
        dbx.credits uid - info.final_price ∧
      ∃ a0 ∈ dbx.accounts,
        info.account = assignUpd now uid un a0 ∧
        info.original_price = a0.price.getD 0 ∧
        availQ c y cr a0 = true ∧
        ∀ b ∈ dbx.accounts, availQ c y cr b = true → ltKey (keyOf b) (keyOf a0) = false) := by
  unfold full_price_pass
  cases hsel : selectMin (availQ c y cr) keyOf dbx.accounts with
  | none =>
    simp only [hsel]
    refine ⟨fun _ => ?_, fun info h => ?_⟩
    · intro a ha
      exact selectMin_none hsel a ha
    · simp at h
  | some acc =>
    simp only [hsel]
    obtain ⟨hm, hq, hmin⟩ := selectMin_sound hsel
    have hstat := availQ_status hq
    obtain ⟨hmap, hbr⟩ := assign_and_settle_effect dbx now uid un acc false hm hstat
    cases hbr with
    | inl hfail =>
      obtain ⟨h1, _⟩ := hfail
      refine ⟨fun hna => ?_, fun info h => ?_⟩
      · rw [h1] at hna
        exact absurd hna (by decide)
      · rw [h1] at h
        simp at h
    | inr hok =>
      obtain ⟨h1, hle, hsp, hcu, hcv, ht, hp, hd, hl⟩ := hok
      refine ⟨fun hna => ?_, fun info h => ?_⟩
      · rw [h1] at hna
        simp at hna
      · rw [h1] at h
        simp only [Option.some.injEq] at h
        subst h
        refine ⟨by rw [h1], rfl, by simp, hcu, acc, hm, rfl, rfl, hq, hmin⟩

/-- C5: `buy_account_filtered` follows the two-pass algorithm.  If it
returns `no_affordable`, no available record matched the category filter
within the effective budget (balance + 5 when a token was reservable,
else the balance).  If it succeeds, the discount was used exactly when a
token was reservable, the charge is `max 0 (price - 5)` under discount
and the full price otherwise, the balance drops by the charge, and the
sold record is a cheapest available match within the effective budget
under the (price asc, created_at asc) order. -/
theorem C5_two_pass_cheapest (db : DB) (now : Nat) (uid : Int) (un : Option String)
    (c : String) (y : Option Int) :
    ((buy_account_filtered db now uid un c y).1.2 = "no_affordable" →
      ∀ a ∈ db.accounts,
        availQ c y (db.credits uid + (if 1 ≤ db.tokens uid then 5 else 0)) a = false) ∧
    (∀ info, (buy_account_filtered db now uid un c y).1.1 = some info →
      (buy_account_filtered db now uid un c y).1.2 = "ok" ∧
      info.discount_used = decide (1 ≤ db.tokens uid) ∧
      info.final_price =
        (if info.discount_used then max 0 (info.original_price - 5)
         else info.original_price) ∧
      (buy_account_filtered db now uid un c y).2.credits uid =
        db.credits uid - info.final_price ∧
      ∃ a0 ∈ db.accounts,
        info.account = assignUpd now uid un a0 ∧
        info.original_price = a0.price.getD 0 ∧
        availQ c y (db.credits uid + (if info.discount_used then 5 else 0)) a0 = true ∧
        ∀ b ∈ db.accounts,
          availQ c y (db.credits uid + (if info.discount_used then 5 else 0)) b = true →
            ltKey (keyOf b) (keyOf a0) = false) := by
  unfold buy_account_filtered
  by_cases htk : 1 ≤ db.tokens uid
  · simp only [reserve_token, htk, if_true]
    cases hsel : selectMin (availQ c y (db.credits uid + 5)) keyOf db.accounts with
    | none =>
      simp only [hsel]
      have hsel2 : selectMin (availQ c y (db.credits uid)) keyOf db.accounts = none :=
        selectMin_none_sub (fun a ha => availQ_mono ha (by omega)) hsel
      have hfacts := full_price_pass_facts
        (release_token
          { db with tokens := fun u => if u = uid then db.tokens u - 1 else db.tokens u } uid)
        now uid un c y (db.credits uid)
      refine ⟨fun _ => ?_, fun info h => ?_⟩
      · intro a ha
        exact selectMin_none hsel a ha
      · obtain ⟨_, _, _, _, a0, hm0, _, _, hq0, _⟩ := hfacts.2 info h
        have hf := selectMin_none hsel2 a0 hm0
        rw [hq0] at hf
        cases hf
    | some acc =>
      simp only [hsel]
      obtain ⟨hm, hq, hmin⟩ := selectMin_sound hsel
      have hstat := availQ_status hq
      obtain ⟨hmap, hbr⟩ := assign_and_settle_effect
        { db with tokens := fun u => if u = uid then db.tokens u - 1 else db.tokens u }
        now uid un acc true hm hstat
      cases hbr with
      | inl hfail =>
        obtain ⟨h1, _⟩ := hfail
        refine ⟨fun hna => ?_, fun info h => ?_⟩
        · rw [h1] at hna
          exact absurd hna (by decide)
        · rw [h1] at h
          simp at h
      | inr hok =>
        obtain ⟨h1, hle, hsp, hcu, hcv, ht, hp, hd, hl⟩ := hok
        refine ⟨fun hna => ?_, fun info h => ?_⟩
        · rw [h1] at hna
          simp at hna
        · rw [h1] at h
          simp only [Option.some.injEq] at h
          subst h
          refine ⟨by rw [h1], by simp [htk], by simp, hcu, acc, hm, rfl, rfl, ?_, ?_⟩
          · show availQ c y (db.credits uid + 5) acc = true
            exact hq
          · intro b hb hqb
            exact hmin b hb hqb
  · simp only [reserve_token, htk, if_false]
    have hfacts := full_price_pass_facts db now uid un c y (db.credits uid)
    refine ⟨fun hna => ?_, fun info h => ?_⟩
    · intro a ha
      rw [add_zero]
      exact hfacts.1 hna a ha
    · obtain ⟨hok, hdf, hfp, hcr, a0, hm0, hacct, hop, hq0, hmin0⟩ := hfacts.2 info h
      refine ⟨hok, by rw [hdf]; simp, by rw [hdf, hfp]; rfl, hcr, a0, hm0, hacct, hop, ?_, ?_⟩
      · rw [hdf]
        simpa using hq0
      · intro b hb hqb
        rw [hdf] at hqb
        simp at hqb
        exact hmin0 b hb hqb

/-- C5 witness: the spec scenario — balance 50, one token, record priced
50: the discounted pass reserves the token, charges 45, and leaves
balance 5 with `discount_used = true`. -/
theorem C5_witness :
    ((buy_account_filtered sampleDB 99 7 (some "bob") "US" (some 2020)).1.1 =
      some ⟨assignUpd 99 7 (some "bob") sampleAcc, 50, 45, true⟩) ∧
    ((buy_account_filtered sampleDB 99 7 (some "bob") "US" (some 2020)).1.2 = "ok" ∧
      (⟨assignUpd 99 7 (some "bob") sampleAcc, 50, 45, true⟩ : SoldInfo).discount_used =
        decide (1 ≤ sampleDB.tokens 7) ∧
      (⟨assignUpd 99 7 (some "bob") sampleAcc, 50, 45, true⟩ : SoldInfo).final_price =
        (if (⟨assignUpd 99 7 (some "bob") sampleAcc, 50, 45, true⟩ : SoldInfo).discount_used
         then max 0 ((⟨assignUpd 99 7 (some "bob") sampleAcc, 50, 45, true⟩ :
           SoldInfo).original_price - 5)
         else (⟨assignUpd 99 7 (some "bob") sampleAcc, 50, 45, true⟩ :
           SoldInfo).original_price) ∧
      (buy_account_filtered sampleDB 99 7 (some "bob") "US" (some 2020)).2.credits 7 =
        sampleDB.credits 7 -
          (⟨assignUpd 99 7 (some "bob") sampleAcc, 50, 45, true⟩ : SoldInfo).final_price ∧
      ∃ a0 ∈ sampleDB.accounts,
        (⟨assignUpd 99 7 (some "bob") sampleAcc, 50, 45, true⟩ : SoldInfo).account =
          assignUpd 99 7 (some "bob") a0 ∧
        (⟨assignUpd 99 7 (some "bob") sampleAcc, 50, 45, true⟩ : SoldInfo).original_price =
          a0.price.getD 0 ∧
        availQ "US" (some 2020) (sampleDB.credits 7 +
          (if (⟨assignUpd 99 7 (some "bob") sampleAcc, 50, 45, true⟩ :
            SoldInfo).discount_used then 5 else 0)) a0 = true ∧
        ∀ b ∈ sampleDB.accounts,
          availQ "US" (some 2020) (sampleDB.credits 7 +
            (if (⟨assignUpd 99 7 (some "bob") sampleAcc, 50, 45, true⟩ :
              SoldInfo).discount_used then 5 else 0)) b = true →
            ltKey (keyOf b) (keyOf a0) = false) ∧
    (buy_account_filtered sampleDB 99 7 (some "bob") "US" (some 2020)).2.credits 7 = 5 :=
  ⟨by decide,
    (C5_two_pass_cheapest sampleDB 99 7 (some "bob") "US" (some 2020)).2
      ⟨assignUpd 99 7 (some "bob") sampleAcc, 50, 45, true⟩ (by decide),
    by decide⟩

theorem updateFirst_none_of (p : Deposit → Bool) (f : Deposit → Deposit) :
    ∀ l : List Deposit, (∀ d ∈ l, p d = false) → updateFirst p f l = (none, l) := by
  intro l
  induction l with
  | nil => intro _; rfl
  | cons d rest ih =>
    intro h
    have hd := h d (List.mem_cons_self d rest)
    have hrest := ih (fun e he => h e (List.mem_cons_of_mem d he))
    simp [updateFirst, hd, hrest]

theorem updateFirst_some_split (p : Deposit → Bool) (f : Deposit → Deposit) :
    ∀ (l : List Deposit) (d' : Deposit), (updateFirst p f l).1 = some d' →
      ∃ pre d0 post, l = pre ++ d0 :: post ∧ p d0 = true ∧ d' = f d0 ∧
        (updateFirst p f l).2 = pre ++ f d0 :: post ∧ (∀ e ∈ pre, p e = false) := by
  intro l
  induction l with
  | nil =>
    intro d' h
    simp [updateFirst] at h
  | cons d rest ih =>
    intro d' h
    by_cases hd : p d = true
    · have e1 : (updateFirst p f (d :: rest)).1 = some (f d) := by simp [updateFirst, hd]
      have e2 : (updateFirst p f (d :: rest)).2 = f d :: rest := by simp [updateFirst, hd]
      rw [e1] at h
      simp only [Option.some.injEq] at h
      exact ⟨[], d, rest, rfl, hd, h.symm, by rw [e2]; rfl, by intro e he; cases he⟩
    · have hd' : p d = false := by revert hd; cases p d <;> simp
      have e1 : (updateFirst p f (d :: rest)).1 = (updateFirst p f rest).1 := by
        simp [updateFirst, hd']
      have e2 : (updateFirst p f (d :: rest)).2 = d :: (updateFirst p f rest).2 := by
        simp [updateFirst, hd']
      rw [e1] at h
      obtain ⟨pre, d0, post, hl, hp0, hd0, hl2, hpre⟩ := ih d' h
      refine ⟨d :: pre, d0, post, by rw [hl]; rfl, hp0, hd0, by rw [e2, hl2]; rfl, ?_⟩
      intro e he
      cases he with
      | head => exact hd'
      | tail _ h2 => exact hpre e h2

/-- A `mark_deposit` call against a deposit id whose document is not
pending (or does not exist) returns `None` and leaves the whole store
unchanged. -/
theorem mark_deposit_nonpending (db : DB) (now : Nat) (oid : Nat) (s : String)
    (aid : Int) (ca : Option Int)
    (h : ∀ d ∈ db.deposits, d.oid = oid → d.status ≠ "pending") :
    mark_deposit db now (some oid) s aid ca = (none, db) := by
  have hall : ∀ d ∈ db.deposits,
      (fun d => d.oid = oid && d.status = "pending") d = false := by
    intro d hd
    by_cases ho : d.oid = oid
    · have := h d hd ho
      simp [ho, this]
    · simp [ho]
  unfold mark_deposit
  dsimp only
  rw [updateFirst_none_of _ _ db.deposits hall]

/-- C10: `mark_deposit` updates only a document whose current status is
"pending", so once a deposit is approved or rejected every later
`mark_deposit` call for it returns `None` and leaves the store unchanged
— approve and reject can never both take effect. -/
theorem C10_mark_deposit_pending_once :
    (∀ (db : DB) (now : Nat) (oid : Nat) (s : String) (aid : Int) (ca : Option Int),
      (∀ d ∈ db.deposits, d.oid = oid → d.status ≠ "pending") →
      mark_deposit db now (some oid) s aid ca = (none, db)) ∧
    (∀ (db : DB) (now : Nat) (oid : Nat) (s : String) (aid : Int) (ca : Option Int)
        (d' : Deposit) (db1 : DB) (calls : List MarkArgs),
      (db.deposits.map (fun d => d.oid)).Nodup →
      s ≠ "pending" →
      mark_deposit db now (some oid) s aid ca = (some d', db1) →
      d'.status = s ∧ d'.oid = oid ∧
      (runMarks db1 (some oid) calls).2 = db1 ∧
      (∀ r ∈ (runMarks db1 (some oid) calls).1, r = none)) := by
  constructor
  · exact mark_deposit_nonpending
  · intro db now oid s aid ca d' db1 calls hnd hs hmark
    have h1 : (mark_deposit db now (some oid) s aid ca).1 = some d' := by rw [hmark]
    have h2 : (mark_deposit db now (some oid) s aid ca).2 = db1 := by rw [hmark]
    unfold mark_deposit at h1 h2
    dsimp only at h1 h2
    obtain ⟨pre, d0, post, hl, hp0, hd0, hl2, hpre⟩ :=
      updateFirst_some_split _ _ db.deposits d' h1
    simp only [Bool.and_eq_true, decide_eq_true_eq] at hp0
    have hdep1 : db1.deposits = pre ++ depUpd now s aid ca d0 :: post := by
      rw [← h2]
      exact hl2
    have hstat : d'.status = s := by rw [hd0]; rfl
    have hoid : d'.oid = oid := by rw [hd0]; exact hp0.1
    have hQ : ∀ e ∈ db1.deposits, e.oid = oid → e.status ≠ "pending" := by
      rw [hdep1]
      have hnd2 : ((pre ++ d0 :: post).map (fun d => d.oid)).Nodup := by
        rw [← hl]; exact hnd
      rw [List.map_append, List.map_cons] at hnd2
      have hpost : ∀ e ∈ post, e.oid ≠ oid := by
        intro e he heq
        have hnd3 := (List.Nodup.sublist (List.sublist_append_right _ _) hnd2)
        rw [List.nodup_cons] at hnd3
        exact hnd3.1 (by
          rw [← hp0.1] at heq
          exact List.mem_map.mpr ⟨e, he, heq⟩)
      intro e he heq
      rcases List.mem_append.mp he with hin | hin
      · have := hpre e hin
        simp only [Bool.and_eq_false_iff, decide_eq_false_iff_not] at this
        rcases this with h3 | h3
        · exact absurd heq h3
        · exact h3
      · rcases List.mem_cons.mp hin with h4 | h4
        · rw [show e = depUpd now s aid ca d0 from h4]
          exact hs
        · exact absurd heq (hpost e h4)
    clear hmark h1 h2 hl2 hdep1
    induction calls with
    | nil => exact ⟨hstat, hoid, rfl, by intro r hr; cases hr⟩
    | cons a rest ih =>
      have hstep : mark_deposit db1 a.now (some oid) a.status a.admin_id a.credits_added =
          (none, db1) := mark_deposit_nonpending db1 a.now oid a.status a.admin_id
        a.credits_added hQ
      obtain ⟨_, _, ihr, ihn⟩ := ih
      refine ⟨hstat, hoid, ?_, ?_⟩
      · show (runMarks (mark_deposit db1 a.now (some oid) a.status a.admin_id
          a.credits_added).2 (some oid) rest).2 = db1
        rw [hstep]
        exact ihr
      · intro r hr
        have hr2 : r ∈ (mark_deposit db1 a.now (some oid) a.status a.admin_id
            a.credits_added).1 ::
            (runMarks (mark_deposit db1 a.now (some oid) a.status a.admin_id
              a.credits_added).2 (some oid) rest).1 := hr
        rw [hstep] at hr2
        cases hr2 with
        | head => rfl
        | tail _ h5 => exact ihn r h5

/-- C10 witness: approve a pending deposit, then a reject attempt (and a
second approve attempt) return `None` and change nothing. -/
theorem C10_witness :
    ((depDB.deposits.map (fun d => d.oid)).Nodup ∧
      ("approved" : String) ≠ "pending" ∧
      mark_deposit depDB 50 (some 5) "approved" 11 (some 25) =
        (some (depUpd 50 "approved" 11 (some 25) pendingDep),
          { depDB with deposits := [depUpd 50 "approved" 11 (some 25) pendingDep] })) ∧
    ((depUpd 50 "approved" 11 (some 25) pendingDep).status = "approved" ∧
      (depUpd 50 "approved" 11 (some 25) pendingDep).oid = 5 ∧
      (runMarks { depDB with deposits := [depUpd 50 "approved" 11 (some 25) pendingDep] }
          (some 5) [⟨60, "rejected", 12, none⟩, ⟨61, "approved", 13, some 9⟩]).2 =
        { depDB with deposits := [depUpd 50 "approved" 11 (some 25) pendingDep] } ∧
      (∀ r ∈ (runMarks { depDB with deposits :=
            [depUpd 50 "approved" 11 (some 25) pendingDep] }
          (some 5) [⟨60, "rejected", 12, none⟩, ⟨61, "approved", 13, some 9⟩]).1,
        r = none)) :=
  ⟨⟨by decide, by decide, by rfl⟩,
    C10_mark_deposit_pending_once.2 depDB 50 5 "approved" 11 (some 25)
      (depUpd 50 "approved" 11 (some 25) pendingDep)
      { depDB with deposits := [depUpd 50 "approved" 11 (some 25) pendingDep] }
      [⟨60, "rejected", 12, none⟩, ⟨61, "approved", 13, some 9⟩]
      (by decide) (by decide) (by rfl)⟩

end SettlementModel




namespace SessionModel

theorem countP_append (p : OutMsg → Bool) (l1 l2 : List OutMsg) :
    countP p (l1 ++ l2) = countP p l1 + countP p l2 := by
  simp [countP, List.filter_append]

/-- With no buyer registered, the listener changes nothing and emits no
buyer delivery, sold report, or raw-text admin forward. -/
theorem otp_listener_buyer_none (s : Session) (t : List Char) (h : s.buyer = none) :
    (otp_listener s t).1 = s ∧
    countP isBuyerDelivery (otp_listener s t).2 = 0 ∧
    countP isSoldReport (otp_listener s t).2 = 0 ∧
    countP isAdminRaw (otp_listener s t).2 = 0 := by
  cases ham : s.adminMonitor with
  | none =>
    simp [otp_listener, h, ham, countP]
  | some m =>
    cases h5 : findRun 5 (pyStrip t) with
    | none => simp [otp_listener, h, ham, h5, countP]
    | some c =>
      simp [otp_listener, h, ham, h5, countP, isBuyerDelivery, isSoldReport, isAdminRaw]

/-- With a buyer registered but no candidate code in the text, the
listener changes nothing and emits no buyer delivery, sold report, or
raw-text admin forward. -/
theorem otp_listener_no_code (s : Session) (t : List Char) (b : Int)
    (hb : s.buyer = some b) (hx : extractCode (pyStrip t) = none) :
    (otp_listener s t).1 = s ∧
    countP isBuyerDelivery (otp_listener s t).2 = 0 ∧
    countP isSoldReport (otp_listener s t).2 = 0 ∧
    countP isAdminRaw (otp_listener s t).2 = 0 := by
  cases ham : s.adminMonitor with
  | none =>
    simp [otp_listener, hb, hx, ham, countP]
  | some m =>
    cases h5 : findRun 5 (pyStrip t) with
    | none => simp [otp_listener, hb, hx, ham, h5, countP]
    | some c =>
      simp [otp_listener, hb, hx, ham, h5, countP, isBuyerDelivery, isSoldReport, isAdminRaw]

/-- With a buyer registered and a candidate code extracted, the listener
clears the buyer, keeps the admin monitor, sets the sold-report flag,
delivers to the buyer exactly once, and emits the sold report exactly
when the flag was not yet set. -/
theorem otp_listener_delivery (s : Session) (t : List Char) (b : Int) (code : List Char)
    (hb : s.buyer = some b) (hx : extractCode (pyStrip t) = some code) :
    (otp_listener s t).1.buyer = none ∧
    (otp_listener s t).1.adminMonitor = s.adminMonitor ∧
    (otp_listener s t).1.soldReportSent = true ∧
    countP isBuyerDelivery (otp_listener s t).2 = 1 ∧
    countP isSoldReport (otp_listener s t).2 = (if s.soldReportSent then 0 else 1) := by
  obtain ⟨sb, sam, sf⟩ := s
  simp only at hb
  subst hb
  cases sam with
  | none =>
    cases sf <;>
      simp [otp_listener, hx, countP, isBuyerDelivery, isSoldReport]
  | some m =>
    cases h5 : findRun 5 (pyStrip t) with
    | none =>
      by_cases hmb : m = b <;> cases sf <;>
        simp [otp_listener, hx, h5, hmb, countP, isBuyerDelivery, isSoldReport]
    | some c5 =>
      by_cases hmb : m = b <;> cases sf <;>
        simp [otp_listener, hx, h5, hmb, countP, isBuyerDelivery, isSoldReport]

/-- Run-level counting: at most one buyer delivery and at most one sold
report per session; none once the buyer is cleared or the flag is set;
and starting with the flag clear, reports match deliveries one-to-one. -/
theorem runMsgs_counts : ∀ (msgs : List (List Char)) (s : Session),
    countP isBuyerDelivery (runMsgs s msgs).2 ≤ 1 ∧
    (s.buyer = none → countP isBuyerDelivery (runMsgs s msgs).2 = 0) ∧
    countP isSoldReport (runMsgs s msgs).2 ≤ 1 ∧
    (s.soldReportSent = true → countP isSoldReport (runMsgs s msgs).2 = 0) ∧
    (s.soldReportSent = false →
      countP isSoldReport (runMsgs s msgs).2 =
        countP isBuyerDelivery (runMsgs s msgs).2) := by
  intro msgs
  induction msgs with
  | nil =>
    intro s
    simp [runMsgs, countP]
  | cons t rest ih =>
    intro s
    have happ2 : (runMsgs s (t :: rest)).2 =
        (otp_listener s t).2 ++ (runMsgs (otp_listener s t).1 rest).2 := rfl
    rw [happ2, countP_append, countP_append]
    rcases hb : s.buyer with _ | b
    · obtain ⟨hs1, hd0, hr0, _⟩ := otp_listener_buyer_none s t hb
      rw [hs1, hd0, hr0]
      obtain ⟨jd, jdz, jr, jrz, jeq⟩ := ih s
      refine ⟨by omega, fun _ => by rw [jdz hb], by omega, fun hf => by rw [jrz hf],
        fun hf => by rw [jeq hf]⟩
    · rcases hx : extractCode (pyStrip t) with _ | code
      · obtain ⟨hs1, hd0, hr0, _⟩ := otp_listener_no_code s t b hb hx
        rw [hs1, hd0, hr0]
        obtain ⟨jd, jdz, jr, jrz, jeq⟩ := ih s
        refine ⟨by omega, fun h => ?_, by omega, fun hf => by rw [jrz hf],
          fun hf => by rw [jeq hf]⟩
        cases h
      · obtain ⟨hs1, hs2, hs3, hd1, hr1⟩ := otp_listener_delivery s t b code hb hx
        obtain ⟨jd, jdz, jr, jrz, jeq⟩ := ih (otp_listener s t).1
        have hdrest : countP isBuyerDelivery (runMsgs (otp_listener s t).1 rest).2 = 0 :=
          jdz hs1
        have hrrest : countP isSoldReport (runMsgs (otp_listener s t).1 rest).2 = 0 :=
          jrz hs3
        rw [hd1, hr1, hdrest, hrrest]
        refine ⟨by omega, fun h => ?_, ?_, fun hf => ?_, fun hf => ?_⟩
        · cases h
        · by_cases hf : s.soldReportSent <;> simp [hf]
        · simp [hf]
        · simp [hf]

/-- C6: for a session with a registered buyer, the secret code is
delivered to the buyer at most once no matter how many matching messages
arrive; once the registration is cleared nothing is ever delivered; and
every single message either ends with the buyer registration cleared or
delivers nothing and leaves the session state untouched. -/
theorem C6_buyer_delivery_at_most_once :
    (∀ (b : Int) (am : Option Int) (flag : Bool) (msgs : List (List Char)),
      countP isBuyerDelivery (runMsgs ⟨some b, am, flag⟩ msgs).2 ≤ 1) ∧
    (∀ (am : Option Int) (flag : Bool) (msgs : List (List Char)),
      countP isBuyerDelivery (runMsgs ⟨none, am, flag⟩ msgs).2 = 0) ∧
    (∀ (s : Session) (t : List Char),
      (otp_listener s t).1.buyer = none ∨
        (countP isBuyerDelivery (otp_listener s t).2 = 0 ∧ (otp_listener s t).1 = s)) := by
  refine ⟨fun b am flag msgs => (runMsgs_counts msgs _).1,
    fun am flag msgs => (runMsgs_counts msgs _).2.1 rfl,
    fun s t => ?_⟩
  rcases hb : s.buyer with _ | b
  · obtain ⟨hs1, hd0, _⟩ := otp_listener_buyer_none s t hb
    exact Or.inr ⟨hd0, hs1⟩
  · rcases hx : extractCode (pyStrip t) with _ | code
    · obtain ⟨hs1, hd0, _⟩ := otp_listener_no_code s t b hb hx
      exact Or.inr ⟨hd0, hs1⟩
    · exact Or.inl (otp_listener_delivery s t b code hb hx).1

/-- C7: the sold report is emitted at most once per resource id across
the session's lifetime, and — starting from a clear per-id flag — it is
emitted exactly once per (at most one) successful buyer delivery: it
fires on the first delivery and never again. -/
theorem C7_sold_report_exactly_once :
    (∀ (s : Session) (msgs : List (List Char)),
      countP isSoldReport (runMsgs s msgs).2 ≤ 1) ∧
    (∀ (b? am : Option Int) (msgs : List (List Char)),
      countP isSoldReport (runMsgs ⟨b?, am, false⟩ msgs).2 =
        countP isBuyerDelivery (runMsgs ⟨b?, am, false⟩ msgs).2) :=
  ⟨fun s msgs => (runMsgs_counts msgs s).2.2.1,
    fun b? am msgs => (runMsgs_counts msgs ⟨b?, am, false⟩).2.2.2.2 rfl⟩

/-- C8 counterexample: a message whose only numeric run is the 6-digit
"123456" contains no 5-digit code, yet with both a buyer and a distinct
admin monitor registered the admin monitor does receive a forward (the
raw-text forward that accompanies the buyer delivery). -/
theorem C8_counterexample :
    findRun 5 (pyStrip ("code 123456".toList)) = none ∧
    countP isAdminOut
      (otp_listener ⟨some 1, some 2, false⟩ ("code 123456".toList)).2 = 1 := by
  decide

/-- C8 amended: the admin monitor receives the extracted 5-digit code
(not the raw text) once per message containing a word-boundary 5-digit
run, whether or not a buyer is still registered; in addition, on the one
message that completes buyer delivery, if the admin monitor differs from
the buyer, the raw message text is forwarded once more — also when the
delivered code is a 6- or 4-digit candidate with no 5-digit run. -/
theorem C8_admin_forward_behavior (s : Session) (t : List Char) :
    countP isAdminCode (otp_listener s t).2 =
      (match s.adminMonitor, findRun 5 (pyStrip t) with
        | some _, some _ => 1
        | _, _ => 0) ∧
    countP isAdminRaw (otp_listener s t).2 =
      (match s.adminMonitor, s.buyer, extractCode (pyStrip t) with
        | some m, some b, some _ => if m = b then 0 else 1
        | _, _, _ => 0) := by
  obtain ⟨sb, sam, sf⟩ := s
  cases sam with
  | none =>
    cases hb : sb with
    | none => simp [otp_listener, hb, countP]
    | some b =>
      cases hx : extractCode (pyStrip t) with
      | none => simp [otp_listener, hx, countP]
      | some code =>
        cases sf <;> simp [otp_listener, hx, countP, isAdminCode, isAdminRaw]
  | some m =>
    cases h5 : findRun 5 (pyStrip t) with
    | none =>
      cases hb : sb with
      | none => simp [otp_listener, hb, h5, countP]
      | some b =>
        cases hx : extractCode (pyStrip t) with
        | none => simp [otp_listener, hx, h5, countP]
        | some code =>
          by_cases hmb : m = b <;> cases sf <;>
            simp [otp_listener, hx, h5, hmb, countP, isAdminCode, isAdminRaw]
    | some c5 =>
      cases hb : sb with
      | none => simp [otp_listener, hb, h5, countP, isAdminCode, isAdminRaw]
      | some b =>
        cases hx : extractCode (pyStrip t) with
        | none => simp [otp_listener, hx, h5, countP, isAdminCode, isAdminRaw]
        | some code =>
          by_cases hmb : m = b <;> cases sf <;>
            simp [otp_listener, hx, h5, hmb, countP, isAdminCode, isAdminRaw]

end SessionModel

namespace SessionModel

theorem isRunSplit_nil_pre (n : Nat) (w : Bool) (l c : List Char) :
    IsRunSplit n w l [] c ↔ (w = false ∧ matchHere n l = true ∧ c = l.take n) := by
  constructor
  · rintro ⟨⟨post, hdec, hpost⟩, hlen, hdig, hw, _⟩
    have hw' := hw rfl
    simp only [List.nil_append] at hdec
    subst hdec
    have htake : (c ++ post).take n = c := List.take_left' hlen
    have hdrop : (c ++ post).drop n = post := List.drop_left' hlen
    refine ⟨hw', ?_, htake.symm⟩
    unfold matchHere digitsPrefix boundaryOk
    rw [htake, hdrop]
    simp only [Bool.and_eq_true, decide_eq_true_eq]
    refine ⟨⟨hlen, hdig⟩, ?_⟩
    cases post with
    | nil => rfl
    | cons y rest =>
      have := hpost y rfl
      simp [this]
  · rintro ⟨hw, hmh, hc⟩
    unfold matchHere digitsPrefix boundaryOk at hmh
    simp only [Bool.and_eq_true, decide_eq_true_eq] at hmh
    obtain ⟨⟨hlen', hdig'⟩, hbnd⟩ := hmh
    subst hc
    refine ⟨⟨l.drop n, ?_, ?_⟩, hlen', hdig', fun _ => hw, ?_⟩
    · rw [List.nil_append, List.take_append_drop]
    · intro x hx
      cases hd : l.drop n with
      | nil =>
        rw [hd] at hx
        cases hx
      | cons y rest =>
        rw [hd] at hx hbnd
        simp only [List.head?_cons, Option.some.injEq] at hx
        subst hx
        simpa using hbnd
    · intro x hx
      cases hx

theorem isRunSplit_cons (n : Nat) (w : Bool) (a : Char) (rest pre0 c : List Char) :
    IsRunSplit n w (a :: rest) (a :: pre0) c ↔ IsRunSplit n (isWordChar a) rest pre0 c := by
  unfold IsRunSplit
  constructor
  · rintro ⟨⟨post, hdec, hpost⟩, hlen, hdig, _, hlast⟩
    rw [List.cons_append, List.cons_append] at hdec
    have hdec' : rest = pre0 ++ c ++ post := (List.cons.inj hdec).2
    refine ⟨⟨post, hdec', hpost⟩, hlen, hdig, ?_, ?_⟩
    · intro h0
      subst h0
      exact hlast a (by simp)
    · intro x hx
      apply hlast x
      cases pre0 with
      | nil => cases hx
      | cons p ps =>
        rw [List.getLast?_cons_cons]
        exact hx
  · rintro ⟨⟨post, hdec, hpost⟩, hlen, hdig, hpre0, hlast⟩
    refine ⟨⟨post, ?_, hpost⟩, hlen, hdig, ?_, ?_⟩
    · rw [List.cons_append, List.cons_append, ← hdec]
    · intro h
      cases h
    · intro x hx
      cases pre0 with
      | nil =>
        have hxa : a = x := by simpa using hx
        subst hxa
        exact hpre0 rfl
      | cons p ps =>
        apply hlast x
        rw [List.getLast?_cons_cons] at hx
        exact hx

/-- The scanner finds exactly the leftmost word-boundary-delimited
`n`-digit run of the suffix, relative to the left context `w`. -/
theorem findRunAux_spec (n : Nat) (hn : 0 < n) : ∀ (l : List Char) (w : Bool),
    (∀ c, findRunAux n w l = some c →
      ∃ pre, IsRunSplit n w l pre c ∧
        ∀ pre' c', IsRunSplit n w l pre' c' → pre.length ≤ pre'.length) ∧
    (findRunAux n w l = none → ∀ pre c, ¬ IsRunSplit n w l pre c) := by
  intro l
  induction l with
  | nil =>
    intro w
    constructor
    · intro c h
      simp [findRunAux] at h
    · intro _ pre c hsp
      obtain ⟨⟨post, hdec, _⟩, hlen, _⟩ := hsp
      have hc : c = [] := by
        rcases List.append_eq_nil.mp (List.append_eq_nil.mp hdec.symm).1 with ⟨_, h2⟩
        exact h2
      rw [hc] at hlen
      simp at hlen
      omega
  | cons a rest ih =>
    intro w
    have ihr := ih (isWordChar a)
    constructor
    · intro c h
      by_cases hg : (!w && matchHere n (a :: rest)) = true
      · have hsome : findRunAux n w (a :: rest) = some ((a :: rest).take n) := by
          show (if (!w && matchHere n (a :: rest)) = true then some ((a :: rest).take n)
              else findRunAux n (isWordChar a) rest) = some ((a :: rest).take n)
          rw [if_pos hg]
        rw [hsome] at h
        simp only [Option.some.injEq] at h
        subst h
        simp only [Bool.and_eq_true, Bool.not_eq_true'] at hg
        refine ⟨[], ?_, ?_⟩
        · rw [isRunSplit_nil_pre]
          exact ⟨hg.1, hg.2, rfl⟩
        · intro pre' c' _
          simp
      · have hrec : findRunAux n w (a :: rest) = findRunAux n (isWordChar a) rest := by
          show (if (!w && matchHere n (a :: rest)) = true then some ((a :: rest).take n)
              else findRunAux n (isWordChar a) rest) = findRunAux n (isWordChar a) rest
          rw [if_neg hg]
        rw [hrec] at h
        obtain ⟨pre0, hsp0, hmin0⟩ := ihr.1 c h
        refine ⟨a :: pre0, (isRunSplit_cons n w a rest pre0 c).mpr hsp0, ?_⟩
        intro pre' c' hsp'
        cases pre' with
        | nil =>
          rw [isRunSplit_nil_pre] at hsp'
          obtain ⟨hw', hmh, _⟩ := hsp'
          exact absurd (show (!w && matchHere n (a :: rest)) = true by
            rw [hw', hmh]; rfl) hg
        | cons a' pre0' =>
          obtain ⟨post, hdec2, _⟩ := hsp'.1
          rw [List.cons_append, List.cons_append] at hdec2
          have ha' : a = a' := (List.cons.inj hdec2).1
          subst ha'
          have := hmin0 pre0' c' ((isRunSplit_cons n w a rest pre0' c').mp hsp')
          simp only [List.length_cons]
          omega
    · intro h pre c hsp
      by_cases hg : (!w && matchHere n (a :: rest)) = true
      · have hsome : findRunAux n w (a :: rest) = some ((a :: rest).take n) := by
          show (if (!w && matchHere n (a :: rest)) = true then some ((a :: rest).take n)
              else findRunAux n (isWordChar a) rest) = some ((a :: rest).take n)
          rw [if_pos hg]
        rw [hsome] at h
        cases h
      · have hrec : findRunAux n w (a :: rest) = findRunAux n (isWordChar a) rest := by
          show (if (!w && matchHere n (a :: rest)) = true then some ((a :: rest).take n)
              else findRunAux n (isWordChar a) rest) = findRunAux n (isWordChar a) rest
          rw [if_neg hg]
        rw [hrec] at h
        cases pre with
        | nil =>
          rw [isRunSplit_nil_pre] at hsp
          obtain ⟨hw', hmh, _⟩ := hsp
          exact absurd (show (!w && matchHere n (a :: rest)) = true by
            rw [hw', hmh]; rfl) hg
        | cons a' pre0 =>
          obtain ⟨post, hdec2, _⟩ := hsp.1
          rw [List.cons_append, List.cons_append] at hdec2
          have ha' : a = a' := (List.cons.inj hdec2).1
          subst ha'
          exact ihr.2 h pre0 c ((isRunSplit_cons n w a rest pre0 c).mp hsp)

/-- C9: the buyer-path extractor prefers the leftmost word-boundary
5-digit run, else the leftmost 6-digit run, else the leftmost 4-digit
run; `findRun n` returns exactly the leftmost word-boundary-delimited
`n`-digit run when one exists and `none` when none exists; and when no
candidate exists the listener forwards nothing to the buyer and leaves
the session state (including the buyer registration) unchanged. -/
theorem C9_buyer_code_extractor :
    (∀ (l c : List Char), findRun 5 l = some c → extractCode l = some c) ∧
    (∀ (l c : List Char), findRun 5 l = none → findRun 6 l = some c →
      extractCode l = some c) ∧
    (∀ (l : List Char), findRun 5 l = none → findRun 6 l = none →
      extractCode l = findRun 4 l) ∧
    (∀ (n : Nat) (l c : List Char), 0 < n → findRun n l = some c →
      ∃ pre, IsRunSplit n false l pre c ∧
        ∀ pre' c', IsRunSplit n false l pre' c' → pre.length ≤ pre'.length) ∧
    (∀ (n : Nat) (l : List Char), 0 < n → findRun n l = none →
      ∀ pre c, ¬ IsRunSplit n false l pre c) ∧
    (∀ (s : Session) (t : List Char), extractCode (pyStrip t) = none →
      (otp_listener s t).1 = s ∧ countP isBuyerDelivery (otp_listener s t).2 = 0) := by
  refine ⟨?_, ?_, ?_, ?_, ?_, ?_⟩
  · intro l c h
    unfold extractCode
    rw [h]
  · intro l c h5 h6
    unfold extractCode
    rw [h5, h6]
  · intro l h5 h6
    unfold extractCode
    rw [h5, h6]
  · intro n l c hn h
    exact (findRunAux_spec n hn l false).1 c h
  · intro n l hn h
    exact (findRunAux_spec n hn l false).2 h
  · intro s t hx
    rcases hb : s.buyer with _ | b
    · obtain ⟨h1, h2, _⟩ := otp_listener_buyer_none s t hb
      exact ⟨h1, h2⟩
    · obtain ⟨h1, h2, _⟩ := otp_listener_no_code s t b hb hx
      exact ⟨h1, h2⟩

/-- C9 witness: concrete texts exercising the 5-digit preference, the
leftmost-run description, and the no-candidate service-notice path. -/
theorem C9_witness :
    (findRun 5 ("ab 12345 cd".toList) = some ("12345".toList) ∧
      extractCode ("ab 12345 cd".toList) = some ("12345".toList)) ∧
    (0 < 5 ∧ findRun 5 ("ab 12345 cd".toList) = some ("12345".toList) ∧
      ∃ pre, IsRunSplit 5 false ("ab 12345 cd".toList) pre ("12345".toList) ∧
        ∀ pre' c', IsRunSplit 5 false ("ab 12345 cd".toList) pre' c' →
          pre.length ≤ pre'.length) ∧
    (extractCode (pyStrip ("hello there".toList)) = none ∧
      (otp_listener ⟨some 1, some 2, false⟩ ("hello there".toList)).1 =
        ⟨some 1, some 2, false⟩ ∧
      countP isBuyerDelivery
        (otp_listener ⟨some 1, some 2, false⟩ ("hello there".toList)).2 = 0) :=
  ⟨⟨by decide, C9_buyer_code_extractor.1 _ _ (by decide)⟩,
    ⟨by decide, by decide,
      C9_buyer_code_extractor.2.2.2.1 5 _ _ (by decide) (by decide)⟩,
    by
      have h := C9_buyer_code_extractor.2.2.2.2.2 ⟨some 1, some 2, false⟩
        ("hello there".toList) (by decide)
      exact ⟨by decide, h.1, h.2⟩⟩

end SessionModel
